import Mathlib

/-!
Verification development for the preconnect/pre-resolve scheduler of
`chrome/browser/predictors/preconnect_manager.cc`.

The C++ component is a single-threaded state machine: public entry points
(`Start`, `StartPreresolveHost`, `StartPreresolveHosts`, `StartPreconnectUrl`,
`Stop`) mutate a job table, a host -> navigation-group map, a FIFO queue of
pending job ids and a global in-flight counter; asynchronous resolve
completions re-enter through `OnPreresolveFinished`.  We embed the component
as a Lean state machine: every C++ member function becomes a Lean function on
an explicit `PMState`, and the outbound calls the component makes (network
preconnects, observer notifications, delegate reports) are recorded in an
event log carried in the state, which models the component's observable
behaviour at its outbound interfaces (spec section 6).

Heap pointers are modelled by an arena: `PreresolveInfo` objects live in
`infos` (an id-indexed association list that is never shrunk, mirroring the
fact that a C++ pointer keeps denoting the same object), while the host map
`preresolve_info_` maps a host to the id of its live group; erasing a group
from the host map removes only the map entry, exactly as `preresolve_info_
.erase(it)` ends the map entry's lifetime.  A job's `PreresolveInfo* info`
back-pointer becomes `Option Nat` (an arena id).

The repository sample contains `preconnect_manager.cc` but not its header,
so the three declarations the header supplies (`kMaxInflightPreresolves`,
`PreresolveInfo::is_done`, `PreresolveJob::need_preconnect`) are modelled
from the spec; each carries a doc comment saying so.  The `GURL` and
`net::` load-flag types come from libraries outside the sample and are
modelled structurally.
-/

namespace PreconnectManager

/-- Structural model of `GURL`: scheme, host, port and path are the parts the
scheduler reads (`host()`, `GetOrigin()`, `SchemeIsHTTPOrHTTPS()`). -/
structure Url where
  scheme : String
  host : String
  port : Nat
  path : String
deriving DecidableEq

/-- `GURL::GetOrigin()`: keep scheme, host and port, drop the path. -/
def Url.getOrigin (u : Url) : Url := { u with path := "" }

/-- `GURL::SchemeIsHTTPOrHTTPS()`. -/
def Url.schemeIsHTTPOrHTTPS (u : Url) : Bool :=
  u.scheme = "http" || u.scheme = "https"

/-- `GURL("http://" + hostname)` as built by `StartPreresolveHosts`. -/
def mkHttpUrl (hostname : String) : Url :=
  { scheme := "http", host := hostname, port := 80, path := "" }

/-- Modelled from the spec (`net/base/load_flags.h` is not in the sample):
`LOAD_NORMAL` is the all-clear value. -/
def LOAD_NORMAL : Nat := 0

/-- Modelled from the spec: distinct bit suppressing cookie send. -/
def LOAD_DO_NOT_SEND_COOKIES : Nat := 1

/-- Modelled from the spec: distinct bit suppressing cookie save. -/
def LOAD_DO_NOT_SAVE_COOKIES : Nat := 2

/-- Modelled from the spec: distinct bit suppressing auth-data send. -/
def LOAD_DO_NOT_SEND_AUTH_DATA : Nat := 4

/-- `const bool kAllowCredentialsOnPreconnectByDefault = true;` -/
def kAllowCredentialsOnPreconnectByDefault : Bool := true

/-- Modelled from the spec: the header declaring the fixed global in-flight
cap `kMaxInflightPreresolves` is not in the sample; the spec fixes only that
it is a fixed constant (section 4.2).  We use 3. -/
def kMaxInflightPreresolves : Nat := 3

/-- `PreconnectedRequestStats`: one per-request outcome record. -/
structure PreconnectedRequestStats where
  origin : Url
  was_preresolve_cached : Bool
  was_preconnected : Bool
deriving DecidableEq

/-- `PreconnectStats`: the per-navigation aggregate handed to the delegate.
(`start_time` is wall-clock time and is not modelled.) -/
structure PreconnectStats where
  url : Url
  requests_stats : List PreconnectedRequestStats
deriving DecidableEq

/-- `PreresolveInfo`: one navigation group. -/
structure PreresolveInfo where
  url : Url
  queued_count : Nat
  inflight_count : Nat
  was_canceled : Bool
  stats : PreconnectStats
deriving DecidableEq

/-- Modelled from the spec (header not in the sample): a group is done iff
its queued count and in-flight count are both zero (spec section 3). -/
def PreresolveInfo.is_done (g : PreresolveInfo) : Bool :=
  g.queued_count = 0 && g.inflight_count = 0

/-- `PreresolveJob`: one speculative unit of work.  `info` is the back
reference to the owning group, modelled as an arena id (`none` for ad-hoc
jobs); the C++ `resolve_host_client` handle is represented by the job's
membership in the pending-callback list of the state. -/
structure PreresolveJob where
  url : Url
  num_sockets : Nat
  allow_credentials : Bool
  info : Option Nat
deriving DecidableEq

/-- Modelled from the spec (header not in the sample): a job needs a
preconnect when it asks for at least one socket (spec section 4.4 step 2). -/
def PreresolveJob.need_preconnect (j : PreresolveJob) : Bool :=
  j.num_sockets > 0

/-- `PreconnectRequest` (declared in `resource_prefetch_predictor`): an
origin, a socket count and a credentials flag. -/
structure PreconnectRequest where
  origin : Url
  num_sockets : Nat
  allow_credentials : Bool
deriving DecidableEq

/-- The outbound calls the manager makes, recorded as the observable trace.
Events carry the job id (and, for preconnects, the job's group id) so that
per-job dispositions can be stated; the ids are bookkeeping for the
statements, the payloads are exactly what the source passes out. -/
inductive Event where
  /-- a resolve was submitted for the job (`PreresolveUrl` reached). -/
  | admitted (job_id : Nat) (url : Url)
  /-- `PreresolveUrl` could not get a network context and posted the job's
  callback as an asynchronous task bound to `false`. -/
  | postedFailure (job_id : Nat)
  /-- the job's callback was delivered (`OnPreresolveFinished` entered),
  with the success value it carried. -/
  | resolveFinishedObs (job_id : Nat) (success : Bool)
  /-- `network_context->PreconnectSockets(num_sockets, url, load_flags,
  privacy_mode)` for the job (tagged with the job's group id). -/
  | preconnect (job_id : Nat) (gid : Option Nat) (url : Url)
      (num_sockets : Nat) (load_flags : Nat) (privacy_mode : Bool)
  /-- a `PreconnectedRequestStats` record was appended to group `gid` for
  the job. -/
  | statsRecord (job_id : Nat) (gid : Nat) (rec : PreconnectedRequestStats)
  /-- the job was removed in `TryToLaunchPreresolveJobs` because its group
  was cancelled (dropped without contacting the network). -/
  | dropped (job_id : Nat)
  /-- the job was removed at the end of `FinishPreresolve`. -/
  | finished (job_id : Nat)
  /-- `delegate_->PreconnectFinished(stats)` for a finished group. -/
  | report (url : Url) (stats : PreconnectStats)
deriving DecidableEq

section AssocList

variable {κ : Type} {α : Type} [DecidableEq κ]

/-- Association-list lookup (models `IDMap::Lookup` / `map::find`). -/
def alookup : List (κ × α) → κ → Option α
  | [], _ => none
  | p :: l, k => if p.1 = k then some p.2 else alookup l k

/-- Remove every binding of a key (models `IDMap::Remove` / `map::erase`;
keys are unique in every reachable state). -/
def aremove : List (κ × α) → κ → List (κ × α)
  | [], _ => []
  | p :: l, k => if p.1 = k then aremove l k else p :: aremove l k

/-- Update the value bound to a key in place (models a mutation through a
looked-up pointer). -/
def aupdate : List (κ × α) → κ → (α → α) → List (κ × α)
  | [], _, _ => []
  | p :: l, k, f =>
      if p.1 = k then (p.1, f p.2) :: aupdate l k f else p :: aupdate l k f

@[simp] theorem alookup_nil (k : κ) : alookup ([] : List (κ × α)) k = none := rfl

@[simp] theorem alookup_cons (p : κ × α) (l : List (κ × α)) (k : κ) :
    alookup (p :: l) k = if p.1 = k then some p.2 else alookup l k := rfl

@[simp] theorem aremove_nil (k : κ) : aremove ([] : List (κ × α)) k = [] := rfl

@[simp] theorem aupdate_nil (k : κ) (f : α → α) :
    aupdate ([] : List (κ × α)) k f = [] := rfl

theorem alookup_append (l l' : List (κ × α)) (k : κ) :
    alookup (l ++ l') k = (alookup l k).orElse (fun _ => alookup l' k) := by
  induction l with
  | nil => simp [alookup]
  | cons p l ih =>
      by_cases h : p.1 = k <;> simp [alookup, h, ih]

/-- A lookup that succeeds is unchanged by appending bindings at the end. -/
theorem alookup_append_of_isSome (l l' : List (κ × α)) (k : κ)
    (h : (alookup l k).isSome) : alookup (l ++ l') k = alookup l k := by
  rw [alookup_append]
  cases hv : alookup l k with
  | none => rw [hv] at h; simp at h
  | some v => simp [Option.orElse]

theorem alookup_aupdate_ne (l : List (κ × α)) (k k' : κ) (f : α → α)
    (h : k ≠ k') : alookup (aupdate l k f) k' = alookup l k' := by
  induction l with
  | nil => simp
  | cons p l ih =>
      by_cases hp : p.1 = k
      · simp [aupdate, hp, alookup, h, ih]
      · by_cases hp' : p.1 = k' <;>
          simp [aupdate, hp, alookup, hp', Ne.symm h, ih]

theorem alookup_aupdate_eq (l : List (κ × α)) (k : κ) (f : α → α) :
    alookup (aupdate l k f) k = (alookup l k).map f := by
  induction l with
  | nil => simp
  | cons p l ih =>
      by_cases hp : p.1 = k <;> simp [aupdate, hp, alookup, ih]

theorem alookup_aremove_ne (l : List (κ × α)) (k k' : κ) (h : k ≠ k') :
    alookup (aremove l k) k' = alookup l k' := by
  induction l with
  | nil => simp
  | cons p l ih =>
      by_cases hp : p.1 = k
      · simp [aremove, hp, alookup, h, ih]
      · by_cases hp' : p.1 = k' <;>
          simp [aremove, hp, alookup, hp', Ne.symm h, ih]

@[simp] theorem alookup_aremove_eq (l : List (κ × α)) (k : κ) :
    alookup (aremove l k) k = none := by
  induction l with
  | nil => simp
  | cons p l ih =>
      by_cases hp : p.1 = k <;> simp [aremove, hp, alookup, ih]

end AssocList

/-- The full mutable state of one `PreconnectManager`, plus the event log of
its outbound calls.  `infos` is the arena of `PreresolveInfo` objects (the
heap); `preresolve_info_` is the C++ member of that name, the host map.
`pending` holds the callbacks currently owned by the network layer: one
entry per outstanding resolve, carrying `some false` when the callback was
posted with a forced failure because no network context was available.
`ctx_available` models whether `GetNetworkContext()` returns a handle; the
source computes it from fields that no public operation mutates, so it is a
fixed configuration bit. -/
structure PMState where
  preresolve_info_ : List (String × Nat)
  infos : List (Nat × PreresolveInfo)
  next_info_id : Nat
  preresolve_jobs_ : List (Nat × PreresolveJob)
  next_job_id : Nat
  queued_jobs_ : List Nat
  pending : List (Nat × Option Bool)
  inflight_preresolves_count_ : Nat
  ctx_available : Bool
  log : List Event
deriving DecidableEq

/-- A freshly constructed manager: empty tables, zero counters. -/
def initState (ctx : Bool) : PMState :=
  { preresolve_info_ := [], infos := [], next_info_id := 0,
    preresolve_jobs_ := [], next_job_id := 0, queued_jobs_ := [],
    pending := [], inflight_preresolves_count_ := 0,
    ctx_available := ctx, log := [] }

/-- Read a group object through its arena id (a `PreresolveInfo*` deref). -/
def getInfo (s : PMState) (gid : Nat) : Option PreresolveInfo :=
  alookup s.infos gid

/-- The cancellation flag of arena object `gid` (`false` when the id does
not denote an object). -/
def infoCanceled (s : PMState) (gid : Nat) : Bool :=
  match getInfo s gid with
  | some g => g.was_canceled
  | none => false

/-- What one `PreresolveUrl` call produces (lines 169-189): an observer
notification is fired (not modelled as an event; no claim reads it), then
either a `ResolveHostClientImpl` is created and the network layer owns the
callback, or — when no network context can be obtained — the callback is
posted as an asynchronous task already bound to `false` and no client is
returned.  The callback itself is never run inside this call. -/
structure PreresolveOutcome where
  /-- `some ()` when a `ResolveHostClientImpl` was created. -/
  client : Option Unit
  /-- tasks posted to the current thread: the job's callback with the
  success value it was bound to. -/
  posted : List (Nat × Bool)
deriving DecidableEq

/-- `PreconnectManager::PreresolveUrl` (lines 169-189), as the outcome it
hands back for one job. -/
def PreresolveUrl (ctx_available : Bool) (job_id : Nat) :
    PreresolveOutcome :=
  if !ctx_available then
    -- Cannot invoke the callback right away (reentrancy); post it with
    -- `false` instead.
    { client := none, posted := [(job_id, false)] }
  else
    { client := some (), posted := [] }

/-- Lines 156-163 of `PreconnectUrl`: compute `(load_flags, privacy_mode)`
from the credentials flag. -/
def computeLoadParams (allow_credentials : Bool) : Nat × Bool :=
  if !allow_credentials then
    (LOAD_DO_NOT_SEND_COOKIES ||| LOAD_DO_NOT_SAVE_COOKIES |||
       LOAD_DO_NOT_SEND_AUTH_DATA, true)
  else
    (LOAD_NORMAL, false)

/-- `PreconnectManager::PreconnectUrl` (lines 143-167): the network call it
submits, or `none` when no network context is available (the call is
dropped, best-effort).  The observer notification precedes the context
check in the source and is not claim-relevant.  The job id and group id
tag the resulting event. -/
def PreconnectUrlCall (ctx_available : Bool) (job_id : Nat)
    (gid : Option Nat) (url : Url) (num_sockets : Nat)
    (allow_credentials : Bool) : Option Event :=
  if !ctx_available then none
  else
    let params := computeLoadParams allow_credentials
    some (Event.preconnect job_id gid url num_sockets params.1 params.2)

/-- `info && info->was_canceled` for a job's group back-reference (also the
guard of the drop branch of `TryToLaunchPreresolveJobs`, defined early so
`FinishPreresolve` can share it). -/
def jobCanceled (s : PMState) (io : Option Nat) : Bool :=
  match io with
  | some gid => infoCanceled s gid
  | none => false

/-- `info->stats->requests_stats.emplace_back(job->url, cached,
need_preconnect)` in `FinishPreresolve`. -/
def appendStats (s : PMState) (job_id gid : Nat) (job : PreresolveJob)
    (cached need_preconnect : Bool) : PMState :=
  let newRecord : PreconnectedRequestStats :=
    { origin := job.url, was_preresolve_cached := cached,
      was_preconnected := need_preconnect }
  { s with
    infos := aupdate s.infos gid (fun g =>
      { g with stats := { g.stats with
          requests_stats := g.stats.requests_stats ++ [newRecord] } }),
    log := s.log ++ [Event.statsRecord job_id gid newRecord] }

/-- `if (info && found) ...emplace_back(...)`: append the stats record when
the job belongs to a (live) group and the resolve was found. -/
def recordStats (s : PMState) (job_id : Nat) (job : PreresolveJob)
    (found cached need_preconnect : Bool) : PMState :=
  match job.info with
  | some gid =>
      if found && (getInfo s gid).isSome then
        appendStats s job_id gid job cached need_preconnect
      else s
  | none => s

/-- `preresolve_jobs_.Remove(job_id)` at the end of `FinishPreresolve`. -/
def removeFinished (s : PMState) (job_id : Nat) : PMState :=
  { s with preresolve_jobs_ := aremove s.preresolve_jobs_ job_id,
           log := s.log ++ [Event.finished job_id] }

/-- `PreconnectManager::FinishPreresolve` (lines 238-255).  Looks the job
up, decides `need_preconnect`, possibly submits a preconnect, appends a
stats record when the job has a group and the resolve was found, and
removes the job from the job table.  The `none` branch of the lookup is the
source's `DCHECK(job)`: unreachable for delivered callbacks. -/
def FinishPreresolve (s : PMState) (job_id : Nat) (found cached : Bool) :
    PMState :=
  match alookup s.preresolve_jobs_ job_id with
  | none => s
  | some job =>
    -- bool need_preconnect = found && job->need_preconnect() &&
    --                        (!info || !info->was_canceled);
    let need_preconnect := found && job.need_preconnect &&
      !(jobCanceled s job.info)
    let s1 := { s with log := s.log ++
      (if need_preconnect then
        (PreconnectUrlCall s.ctx_available job_id job.info job.url
            job.num_sockets job.allow_credentials).toList
      else []) }
    removeFinished (recordStats s1 job_id job found cached need_preconnect)
      job_id

/-- `PreconnectManager::AllPreresolvesForUrlFinished` (lines 257-266):
report the group's stats to the delegate and erase the group from the host
map.  The `none` branches are the source's `DCHECK`s (the group is in the
arena and the host map entry for its host is this group). -/
def AllPreresolvesForUrlFinished (s : PMState) (gid : Nat) : PMState :=
  match getInfo s gid with
  | none => s
  | some g =>
    match alookup s.preresolve_info_ g.url.host with
    | none => s
    | some _ =>
      { s with preresolve_info_ := aremove s.preresolve_info_ g.url.host,
               log := s.log ++ [Event.report g.url g.stats] }

/-- The admit branch of the loop body of `TryToLaunchPreresolveJobs`:
`job->resolve_host_client = PreresolveUrl(...)` (the callback either goes
to the network layer or is posted bound to `false`), bump the group's
in-flight count if any, bump the global in-flight count. -/
def admitJob (s : PMState) (job_id : Nat) (job : PreresolveJob) : PMState :=
  let outcome := PreresolveUrl s.ctx_available job_id
  let forced : Option Bool :=
    match outcome.posted with
    | [] => none
    | (_, b) :: _ => some b
  { s with
    pending := s.pending ++ [(job_id, forced)],
    inflight_preresolves_count_ := s.inflight_preresolves_count_ + 1,
    infos :=
      match job.info with
      | some gid =>
          aupdate s.infos gid (fun g =>
            { g with inflight_count := g.inflight_count + 1 })
      | none => s.infos,
    log := s.log ++ [Event.admitted job_id job.url] ++
      (match outcome.posted with
       | [] => []
       | _ :: _ => [Event.postedFailure job_id]) }

/-- The drop branch of the loop body: `preresolve_jobs_.Remove(job_id)`. -/
def dropJob (s : PMState) (job_id : Nat) : PMState :=
  { s with
    preresolve_jobs_ := aremove s.preresolve_jobs_ job_id,
    log := s.log ++ [Event.dropped job_id] }

/-- `if (info) --info->queued_count;` at the end of the loop body. -/
def decQueuedCount (s : PMState) (io : Option Nat) : PMState :=
  match io with
  | some gid =>
      { s with infos := aupdate s.infos gid (fun g =>
          { g with queued_count := g.queued_count - 1 }) }
  | none => s

/-- The body of the `while` loop of `TryToLaunchPreresolveJobs` (lines
194-216), recursing on the queue contents (the loop reads the queue only
through `front()`/`pop_front()`, so the remaining queue is passed
explicitly and written back on exit).  The `none` job-lookup branch is the
source's `DCHECK(job)`: unreachable, the popped id is skipped. -/
def tryLoop : List Nat → PMState → PMState
  | [], s => { s with queued_jobs_ := [] }
  | job_id :: rest, s =>
    if s.inflight_preresolves_count_ < kMaxInflightPreresolves then
      match alookup s.preresolve_jobs_ job_id with
      | none => tryLoop rest s
      | some job =>
        let s1 :=
          if !jobCanceled s job.info then admitJob s job_id job
          else dropJob s job_id
        tryLoop rest (decQueuedCount s1 job.info)
    else { s with queued_jobs_ := job_id :: rest }

/-- `PreconnectManager::TryToLaunchPreresolveJobs` (lines 191-217). -/
def TryToLaunchPreresolveJobs (s : PMState) : PMState :=
  tryLoop s.queued_jobs_ s

/-- `--inflight_preresolves_count_;` in `OnPreresolveFinished`. -/
def decInflight (s : PMState) : PMState :=
  { s with inflight_preresolves_count_ := s.inflight_preresolves_count_ - 1 }

/-- `if (info) --info->inflight_count;` in `OnPreresolveFinished`. -/
def decGroupInflight (s : PMState) (io : Option Nat) : PMState :=
  match io with
  | some gid =>
      { s with infos := aupdate s.infos gid (fun g =>
          { g with inflight_count := g.inflight_count - 1 }) }
  | none => s

/-- `if (info && info->is_done()) AllPreresolvesForUrlFinished(info);` in
`OnPreresolveFinished`. -/
def maybeFinalizeGroup (s : PMState) (io : Option Nat) : PMState :=
  match io with
  | some gid =>
    match getInfo s gid with
    | some g => if g.is_done then AllPreresolvesForUrlFinished s gid else s
    | none => s
  | none => s

/-- `PreconnectManager::OnPreresolveFinished` (lines 219-236): fire the
observer notification, finish the job, decrement the in-flight counters,
finalize the group if it is now done, and pull more queued work.  The
group pointer (`info`) is captured from the job before `FinishPreresolve`
removes it. -/
def OnPreresolveFinished (s : PMState) (job_id : Nat) (success : Bool) :
    PMState :=
  match alookup s.preresolve_jobs_ job_id with
  | none => s
  | some job =>
    let s0 := { s with log := s.log ++
      [Event.resolveFinishedObs job_id success] }
    let s1 := FinishPreresolve s0 job_id success false
    TryToLaunchPreresolveJobs
      (maybeFinalizeGroup (decGroupInflight (decInflight s1) job.info)
        job.info)

/-- `PreconnectManager::Start` (lines 73-93). -/
def Start (s : PMState) (url : Url) (requests : List PreconnectRequest) :
    PMState :=
  let host := url.host
  if (alookup s.preresolve_info_ host).isSome then s
  else
    let gid := s.next_info_id
    let info : PreresolveInfo :=
      { url := url, queued_count := requests.length, inflight_count := 0,
        was_canceled := false,
        stats := { url := url, requests_stats := [] } }
    let s1 := { s with
      preresolve_info_ := s.preresolve_info_ ++ [(host, gid)],
      infos := s.infos ++ [(gid, info)],
      next_info_id := gid + 1 }
    let s2 := requests.foldl (fun acc request =>
      let job : PreresolveJob :=
        { url := request.origin, num_sockets := request.num_sockets,
          allow_credentials := request.allow_credentials, info := some gid }
      { acc with
        preresolve_jobs_ := acc.preresolve_jobs_ ++ [(acc.next_job_id, job)],
        next_job_id := acc.next_job_id + 1,
        queued_jobs_ := acc.queued_jobs_ ++ [acc.next_job_id] }) s1
    TryToLaunchPreresolveJobs s2

/-- `PreconnectManager::StartPreresolveHost` (lines 95-104). -/
def StartPreresolveHost (s : PMState) (url : Url) : PMState :=
  if !url.schemeIsHTTPOrHTTPS then s
  else
    let job : PreresolveJob :=
      { url := url.getOrigin, num_sockets := 0,
        allow_credentials := kAllowCredentialsOnPreconnectByDefault,
        info := none }
    TryToLaunchPreresolveJobs { s with
      preresolve_jobs_ := s.preresolve_jobs_ ++ [(s.next_job_id, job)],
      next_job_id := s.next_job_id + 1,
      queued_jobs_ := s.next_job_id :: s.queued_jobs_ }

/-- `PreconnectManager::StartPreresolveHosts` (lines 106-119): push jobs in
front of the queue, iterating the hostnames in reverse. -/
def StartPreresolveHosts (s : PMState) (hostnames : List String) : PMState :=
  let s1 := hostnames.reverse.foldl (fun acc hostname =>
    let job : PreresolveJob :=
      { url := mkHttpUrl hostname, num_sockets := 0,
        allow_credentials := kAllowCredentialsOnPreconnectByDefault,
        info := none }
    { acc with
      preresolve_jobs_ := acc.preresolve_jobs_ ++ [(acc.next_job_id, job)],
      next_job_id := acc.next_job_id + 1,
      queued_jobs_ := acc.next_job_id :: acc.queued_jobs_ }) s
  TryToLaunchPreresolveJobs s1

/-- `PreconnectManager::StartPreconnectUrl` (lines 121-131). -/
def StartPreconnectUrl (s : PMState) (url : Url) (allow_credentials : Bool) :
    PMState :=
  if !url.schemeIsHTTPOrHTTPS then s
  else
    let job : PreresolveJob :=
      { url := url.getOrigin, num_sockets := 1,
        allow_credentials := allow_credentials, info := none }
    TryToLaunchPreresolveJobs { s with
      preresolve_jobs_ := s.preresolve_jobs_ ++ [(s.next_job_id, job)],
      next_job_id := s.next_job_id + 1,
      queued_jobs_ := s.next_job_id :: s.queued_jobs_ }

/-- `PreconnectManager::Stop` (lines 133-141). -/
def Stop (s : PMState) (url : Url) : PMState :=
  match alookup s.preresolve_info_ url.host with
  | none => s
  | some gid =>
      { s with infos := aupdate s.infos gid (fun g =>
          { g with was_canceled := true }) }

/-- The environment's moves against the manager: the five public entry
points plus the delivery of one outstanding resolve callback.  `complete`
models the network layer (or the posted task) invoking the callback for
`job_id` with the given success value; a callback posted with a forced
failure delivers its bound `false` regardless of the value supplied. -/
inductive Op where
  | start (url : Url) (requests : List PreconnectRequest)
  | startPreresolveHost (url : Url)
  | startPreresolveHosts (hostnames : List String)
  | startPreconnectUrl (url : Url) (allow_credentials : Bool)
  | stop (url : Url)
  | complete (job_id : Nat) (success : Bool)
deriving DecidableEq

/-- Deliver an outstanding callback: only ids the network layer actually
holds can fire, each at most once. -/
def completeOp (s : PMState) (job_id : Nat) (success : Bool) : PMState :=
  match alookup s.pending job_id with
  | none => s
  | some forced =>
      OnPreresolveFinished { s with pending := aremove s.pending job_id }
        job_id (forced.getD success)

/-- One step of the state machine. -/
def applyOp (s : PMState) : Op → PMState
  | .start url requests => Start s url requests
  | .startPreresolveHost url => StartPreresolveHost s url
  | .startPreresolveHosts hostnames => StartPreresolveHosts s hostnames
  | .startPreconnectUrl url allow => StartPreconnectUrl s url allow
  | .stop url => Stop s url
  | .complete job_id success => completeOp s job_id success

/-- Run a sequence of operations. -/
def run (ops : List Op) (s : PMState) : PMState :=
  ops.foldl applyOp s

end PreconnectManager

namespace PreconnectManager

/-! ### Basic structural lemmas -/

/-- When the in-flight counter is at (or beyond) the cap, the admission loop
admits nothing and leaves the queue as it found it. -/
theorem tryLoop_at_cap (q : List Nat) (s : PMState)
    (h : ¬ s.inflight_preresolves_count_ < kMaxInflightPreresolves) :
    tryLoop q s = { s with queued_jobs_ := q } := by
  cases q with
  | nil => rfl
  | cons a l => simp [tryLoop, h]

/-- At capacity, `TryToLaunchPreresolveJobs` is the identity. -/
theorem tryToLaunch_at_cap (s : PMState)
    (h : ¬ s.inflight_preresolves_count_ < kMaxInflightPreresolves) :
    TryToLaunchPreresolveJobs s = s := by
  unfold TryToLaunchPreresolveJobs
  rw [tryLoop_at_cap _ _ h]

/-- A key below every key of an association list is absent from it. -/
theorem alookup_none_of_keys_lt (l : List (Nat × PreresolveJob)) (m k : Nat)
    (hl : ∀ p ∈ l, p.1 < m) (hk : m ≤ k) : alookup l k = none := by
  induction l with
  | nil => rfl
  | cons p l ih =>
      have hp := hl p (by simp)
      have : p.1 ≠ k := by omega
      simp [alookup, this]
      exact ih (fun q hq => hl q (by simp [hq]))

/-- With `found = false` no stats record is appended. -/
theorem recordStats_not_found (s : PMState) (job_id : Nat)
    (job : PreresolveJob) (cached need_preconnect : Bool) :
    recordStats s job_id job false cached need_preconnect = s := by
  unfold recordStats
  cases job.info with
  | none => rfl
  | some gid =>
      dsimp only
      rw [if_neg]
      simp

/-! ### Claim C6: duplicate `Start` for an active host is a no-op -/

/-- C6.  While a navigation group for `url.host()` is active (present in the
host map), a second `Start` for that url returns before mutating anything:
no group is created, no jobs are added to the job table or the queue, the
counters, the arena and the event log are all unchanged — the whole state
is equal to what it was. -/
theorem start_duplicate_host_noop (s : PMState) (url : Url)
    (requests : List PreconnectRequest)
    (h : (alookup s.preresolve_info_ url.host).isSome = true) :
    Start s url requests = s := by
  simp [Start, h]

/-- Witness for `start_duplicate_host_noop` at a concrete state holding an
active group for host `a`. -/
theorem start_duplicate_host_noop_witness :
    Start
      { initState true with
          preresolve_info_ := [("a", 0)],
          infos := [(0, { url := mkHttpUrl "a", queued_count := 1,
                          inflight_count := 0, was_canceled := false,
                          stats := { url := mkHttpUrl "a",
                                     requests_stats := [] } })],
          next_info_id := 1 }
      (mkHttpUrl "a") [{ origin := mkHttpUrl "b", num_sockets := 1,
                         allow_credentials := true }] =
    { initState true with
        preresolve_info_ := [("a", 0)],
        infos := [(0, { url := mkHttpUrl "a", queued_count := 1,
                        inflight_count := 0, was_canceled := false,
                        stats := { url := mkHttpUrl "a",
                                   requests_stats := [] } })],
        next_info_id := 1 } :=
  start_duplicate_host_noop _ _ _ (by decide)

/-! ### Claim C10: non-HTTP(S) urls are silent no-ops for the ad-hoc
entry points -/

/-- C10.  For every url whose scheme is neither `http` nor `https`,
`StartPreresolveHost` and `StartPreconnectUrl` return at the scheme check:
no job is created, nothing is enqueued, and the state (including the event
log) is unchanged. -/
theorem non_http_scheme_noop (s : PMState) (url : Url)
    (allow_credentials : Bool) (h : url.schemeIsHTTPOrHTTPS = false) :
    StartPreresolveHost s url = s ∧
    StartPreconnectUrl s url allow_credentials = s := by
  constructor
  · simp [StartPreresolveHost, h]
  · simp [StartPreconnectUrl, h]

/-- Witness for `non_http_scheme_noop` at an `ftp` url. -/
theorem non_http_scheme_noop_witness :
    StartPreresolveHost (initState true)
        { scheme := "ftp", host := "a", port := 21, path := "" } =
      initState true ∧
    StartPreconnectUrl (initState true)
        { scheme := "ftp", host := "a", port := 21, path := "" } true =
      initState true :=
  non_http_scheme_noop _ _ _ (by decide)

/-! ### Claim C9: load attributes computed from the credentials flag -/

/-- C9.  Every preconnect submitted with `allow_credentials = false` carries
load flags that set the cookie-send, cookie-save and auth-data-send
suppression bits (and are exactly their union) together with privacy mode
on; every preconnect submitted with `allow_credentials = true` carries
`LOAD_NORMAL` with privacy mode off. -/
theorem preconnect_load_flags (ctx : Bool) (job_id : Nat) (gid : Option Nat)
    (url : Url) (num_sockets : Nat) :
    (∀ e, PreconnectUrlCall ctx job_id gid url num_sockets false = some e →
       e = Event.preconnect job_id gid url num_sockets
             (LOAD_DO_NOT_SEND_COOKIES ||| LOAD_DO_NOT_SAVE_COOKIES |||
                LOAD_DO_NOT_SEND_AUTH_DATA) true ∧
       (LOAD_DO_NOT_SEND_COOKIES ||| LOAD_DO_NOT_SAVE_COOKIES |||
           LOAD_DO_NOT_SEND_AUTH_DATA) &&& LOAD_DO_NOT_SEND_COOKIES ≠ 0 ∧
       (LOAD_DO_NOT_SEND_COOKIES ||| LOAD_DO_NOT_SAVE_COOKIES |||
           LOAD_DO_NOT_SEND_AUTH_DATA) &&& LOAD_DO_NOT_SAVE_COOKIES ≠ 0 ∧
       (LOAD_DO_NOT_SEND_COOKIES ||| LOAD_DO_NOT_SAVE_COOKIES |||
           LOAD_DO_NOT_SEND_AUTH_DATA) &&& LOAD_DO_NOT_SEND_AUTH_DATA ≠ 0) ∧
    (∀ e, PreconnectUrlCall ctx job_id gid url num_sockets true = some e →
       e = Event.preconnect job_id gid url num_sockets LOAD_NORMAL false) := by
  constructor
  · intro e he
    cases ctx with
    | false => simp [PreconnectUrlCall] at he
    | true =>
        simp [PreconnectUrlCall, computeLoadParams] at he
        subst he
        refine ⟨rfl, by decide, by decide, by decide⟩
  · intro e he
    cases ctx with
    | false => simp [PreconnectUrlCall] at he
    | true =>
        simp [PreconnectUrlCall, computeLoadParams] at he
        subst he
        rfl

/-- Witness for `preconnect_load_flags`: the concrete call the manager
submits for a one-socket preconnect of `http://w` without credentials. -/
theorem preconnect_load_flags_witness :
    (Event.preconnect 0 none (mkHttpUrl "w") 1 7 true) =
      Event.preconnect 0 none (mkHttpUrl "w") 1
        (LOAD_DO_NOT_SEND_COOKIES ||| LOAD_DO_NOT_SAVE_COOKIES |||
           LOAD_DO_NOT_SEND_AUTH_DATA) true ∧
    (LOAD_DO_NOT_SEND_COOKIES ||| LOAD_DO_NOT_SAVE_COOKIES |||
        LOAD_DO_NOT_SEND_AUTH_DATA) &&& LOAD_DO_NOT_SEND_COOKIES ≠ 0 ∧
    (LOAD_DO_NOT_SEND_COOKIES ||| LOAD_DO_NOT_SAVE_COOKIES |||
        LOAD_DO_NOT_SEND_AUTH_DATA) &&& LOAD_DO_NOT_SAVE_COOKIES ≠ 0 ∧
    (LOAD_DO_NOT_SEND_COOKIES ||| LOAD_DO_NOT_SAVE_COOKIES |||
        LOAD_DO_NOT_SEND_AUTH_DATA) &&& LOAD_DO_NOT_SEND_AUTH_DATA ≠ 0 :=
  (preconnect_load_flags true 0 none (mkHttpUrl "w") 1).1
    (Event.preconnect 0 none (mkHttpUrl "w") 1 7 true) (by decide)

/-! ### Event predicates and counters -/

/-- Is the event a stats-record append (for any job)? -/
def isStatsEvt : Event → Bool := fun e =>
  match e with
  | .statsRecord _ _ _ => true
  | _ => false

/-- Is the event a delegate report (for any group)? -/
def isReportEvt : Event → Bool := fun e =>
  match e with
  | .report _ _ => true
  | _ => false

/-- Is the event a network preconnect for a job of group `gid`? -/
def isPreconnectFor (gid : Nat) : Event → Bool := fun e =>
  match e with
  | .preconnect _ g _ _ _ _ => g = some gid
  | _ => false

/-- The hosts of the urls submitted for resolution, in submission order. -/
def admittedHosts (l : List Event) : List String :=
  l.filterMap (fun e =>
    match e with
    | .admitted _ u => some u.host
    | _ => none)

/-! ### Claim C4: what the stats report records for failed resolves -/

/-- A navigation with a single one-socket request whose resolve fails. -/
def singleFailTrace : List Op :=
  [ .start (mkHttpUrl "a")
      [{ origin := mkHttpUrl "b", num_sockets := 1,
         allow_credentials := true }],
    .complete 0 false ]

/-- C4 counterexample.  Job 0 is attached to the group for host `a` and its
resolve finishes with failure, yet the delegate report delivered for the
group carries an empty `requests_stats` list and no stats record is ever
appended: the claim that failed entries are recorded in the stats with
`wasPreconnected = false` is false on this input (the source appends a
record only when `found` is true). -/
theorem failed_resolve_not_recorded :
    Event.resolveFinishedObs 0 false ∈
      (run singleFailTrace (initState true)).log ∧
    Event.report (mkHttpUrl "a")
        { url := mkHttpUrl "a", requests_stats := [] } ∈
      (run singleFailTrace (initState true)).log ∧
    List.countP isStatsEvt (run singleFailTrace (initState true)).log = 0 := by
  decide

/-- C4 as amended.  A job whose resolve finishes with failure contributes no
stats record at all: `FinishPreresolve` with `found = false` leaves every
group's aggregate stats unchanged and appends no stats-record call; failed
entries are simply absent from the delegate report. -/
theorem failed_resolve_no_stats_record (s : PMState) (job_id : Nat)
    (cached : Bool) :
    (∀ gid, (getInfo (FinishPreresolve s job_id false cached) gid).map
        (fun g => g.stats) = (getInfo s gid).map (fun g => g.stats)) ∧
    List.countP isStatsEvt (FinishPreresolve s job_id false cached).log =
      List.countP isStatsEvt s.log := by
  unfold FinishPreresolve
  cases hj : alookup s.preresolve_jobs_ job_id with
  | none => exact ⟨fun gid => rfl, rfl⟩
  | some job =>
      dsimp only
      rw [recordStats_not_found]
      constructor
      · intro gid
        rfl
      · simp [removeFinished, List.countP_append, isStatsEvt]

/-! ### Claim C2: delivery of the delegate report -/

/-- Three ad-hoc resolves fill the in-flight cap; `Start` then creates a
group for host `a` whose two jobs (ids 3 and 4) stay queued; `Stop` cancels
the group; the first ad-hoc resolve completes, and the admission loop drops
both queued jobs of the cancelled group. -/
def groupLeakTrace : List Op :=
  [ .startPreresolveHost (mkHttpUrl "e"),
    .startPreresolveHost (mkHttpUrl "f"),
    .startPreresolveHost (mkHttpUrl "g"),
    .start (mkHttpUrl "a")
      [{ origin := mkHttpUrl "a1", num_sockets := 1,
         allow_credentials := true },
       { origin := mkHttpUrl "a2", num_sockets := 1,
         allow_credentials := true }],
    .stop (mkHttpUrl "a"),
    .complete 0 true ]

/-- C2 evaluated at the failing input.  After `groupLeakTrace`, every job
originally queued for the group of host `a` has been dropped (events
`dropped 3` and `dropped 4`), the group's queued and in-flight counts are
both zero — it is done — yet no delegate report was ever delivered and the
group is still in the host map: the report is delivered zero times, not
exactly once.  `TryToLaunchPreresolveJobs` decrements `queued_count` on the
drop path without checking `is_done`, and no later step ever revisits the
group. -/
theorem dropped_tail_group_never_reported :
    alookup (run groupLeakTrace (initState true)).preresolve_info_ "a" =
      some 0 ∧
    getInfo (run groupLeakTrace (initState true)) 0 =
      some { url := mkHttpUrl "a", queued_count := 0, inflight_count := 0,
             was_canceled := true,
             stats := { url := mkHttpUrl "a", requests_stats := [] } } ∧
    (getInfo (run groupLeakTrace (initState true)) 0).map
        PreresolveInfo.is_done = some true ∧
    Event.dropped 3 ∈ (run groupLeakTrace (initState true)).log ∧
    Event.dropped 4 ∈ (run groupLeakTrace (initState true)).log ∧
    List.countP isReportEvt (run groupLeakTrace (initState true)).log = 0 ∧
    (run groupLeakTrace (initState true)).queued_jobs_ = [] := by
  decide

/-! ### Claim C5: batch front-insertion preserves batch order, later single
host goes first -/

/-- Three one-socket preconnects fill the cap, then the batch and the single
host are queued; completions then free one slot at a time, so the queued
jobs are admitted sequentially. -/
def batchThenSingleTrace : List Op :=
  [ .startPreconnectUrl (mkHttpUrl "h1") true,
    .startPreconnectUrl (mkHttpUrl "h2") true,
    .startPreconnectUrl (mkHttpUrl "h3") true,
    .startPreresolveHosts ["a", "b", "c"],
    .startPreresolveHost (mkHttpUrl "d"),
    .complete 0 true, .complete 1 true, .complete 2 true, .complete 6 true ]

/-- C5.  From any state whose in-flight count is at the cap (so nothing is
admitted inside the two calls themselves), `StartSingleHostBatch(["a", "b",
"c"])` followed by `StartSingleHost("d")` leaves the queue as `d, a, b, c`
in front of whatever was queued before — the batch keeps its original
relative order despite front-insertion, and the later single host sits at
the very front; and on the concrete run `batchThenSingleTrace`, where
completions allow sequential admission, the resolves are submitted in
exactly that relative order `d, a, b, c`. -/
theorem batch_then_single_front_order (s : PMState)
    (hcap : kMaxInflightPreresolves ≤ s.inflight_preresolves_count_)
    (hkeys : ∀ p ∈ s.preresolve_jobs_, p.1 < s.next_job_id) :
    ((StartPreresolveHost (StartPreresolveHosts s ["a", "b", "c"])
        (mkHttpUrl "d")).queued_jobs_ =
      (s.next_job_id + 3) :: (s.next_job_id + 2) :: (s.next_job_id + 1) ::
        s.next_job_id :: s.queued_jobs_ ∧
     (alookup (StartPreresolveHost (StartPreresolveHosts s ["a", "b", "c"])
          (mkHttpUrl "d")).preresolve_jobs_ (s.next_job_id + 3)).map
        PreresolveJob.url = some (mkHttpUrl "d") ∧
     (alookup (StartPreresolveHost (StartPreresolveHosts s ["a", "b", "c"])
          (mkHttpUrl "d")).preresolve_jobs_ (s.next_job_id + 2)).map
        PreresolveJob.url = some (mkHttpUrl "a") ∧
     (alookup (StartPreresolveHost (StartPreresolveHosts s ["a", "b", "c"])
          (mkHttpUrl "d")).preresolve_jobs_ (s.next_job_id + 1)).map
        PreresolveJob.url = some (mkHttpUrl "b") ∧
     (alookup (StartPreresolveHost (StartPreresolveHosts s ["a", "b", "c"])
          (mkHttpUrl "d")).preresolve_jobs_ s.next_job_id).map
        PreresolveJob.url = some (mkHttpUrl "c")) ∧
    admittedHosts (run batchThenSingleTrace (initState true)).log =
      ["h1", "h2", "h3", "d", "a", "b", "c"] := by
  have hnc : ¬ s.inflight_preresolves_count_ < kMaxInflightPreresolves := by
    omega
  constructor
  · unfold StartPreresolveHosts
    simp only [List.reverse_cons, List.reverse_nil, List.nil_append,
      List.cons_append, List.foldl_cons, List.foldl_nil]
    rw [tryToLaunch_at_cap _ (by simpa using hnc)]
    unfold StartPreresolveHost
    simp only [mkHttpUrl, Url.schemeIsHTTPOrHTTPS]
    rw [if_neg (by simp)]
    rw [tryToLaunch_at_cap _ (by simpa using hnc)]
    refine ⟨rfl, ?_, ?_, ?_, ?_⟩ <;>
      · simp only [alookup_append, alookup_cons, alookup_nil]
        rw [alookup_none_of_keys_lt s.preresolve_jobs_ s.next_job_id _ hkeys
          (by omega)]
        simp [Option.orElse, Url.getOrigin, mkHttpUrl, self_eq_add_right]
  · decide

/-- A state at the in-flight cap with nothing else going on. -/
def sAtCap : PMState :=
  { initState true with inflight_preresolves_count_ := kMaxInflightPreresolves }

/-- Witness for `batch_then_single_front_order` at `sAtCap`. -/
theorem batch_then_single_front_order_witness :
    ((StartPreresolveHost (StartPreresolveHosts sAtCap ["a", "b", "c"])
        (mkHttpUrl "d")).queued_jobs_ = [3, 2, 1, 0] ∧
     (alookup (StartPreresolveHost (StartPreresolveHosts sAtCap ["a", "b", "c"])
          (mkHttpUrl "d")).preresolve_jobs_ 3).map
        PreresolveJob.url = some (mkHttpUrl "d") ∧
     (alookup (StartPreresolveHost (StartPreresolveHosts sAtCap ["a", "b", "c"])
          (mkHttpUrl "d")).preresolve_jobs_ 2).map
        PreresolveJob.url = some (mkHttpUrl "a") ∧
     (alookup (StartPreresolveHost (StartPreresolveHosts sAtCap ["a", "b", "c"])
          (mkHttpUrl "d")).preresolve_jobs_ 1).map
        PreresolveJob.url = some (mkHttpUrl "b") ∧
     (alookup (StartPreresolveHost (StartPreresolveHosts sAtCap ["a", "b", "c"])
          (mkHttpUrl "d")).preresolve_jobs_ 0).map
        PreresolveJob.url = some (mkHttpUrl "c")) ∧
    admittedHosts (run batchThenSingleTrace (initState true)).log =
      ["h1", "h2", "h3", "d", "a", "b", "c"] :=
  batch_then_single_front_order sAtCap (by decide)
    (by intro p hp; simp [sAtCap, initState] at hp)


/-! ### Claim C1 machinery: the in-flight counter never exceeds the cap -/

theorem inflight_admitJob (s : PMState) (job_id : Nat) (job : PreresolveJob) :
    (admitJob s job_id job).inflight_preresolves_count_ =
      s.inflight_preresolves_count_ + 1 := rfl

theorem inflight_dropJob (s : PMState) (job_id : Nat) :
    (dropJob s job_id).inflight_preresolves_count_ =
      s.inflight_preresolves_count_ := rfl

theorem inflight_decQueuedCount (s : PMState) (io : Option Nat) :
    (decQueuedCount s io).inflight_preresolves_count_ =
      s.inflight_preresolves_count_ := by
  cases io <;> rfl

theorem tryLoop_inflight_le (q : List Nat) :
    ∀ s : PMState,
      s.inflight_preresolves_count_ ≤ kMaxInflightPreresolves →
      (tryLoop q s).inflight_preresolves_count_ ≤ kMaxInflightPreresolves := by
  induction q with
  | nil => intro s h; exact h
  | cons a l ih =>
      intro s h
      rw [tryLoop]
      by_cases hlt :
          s.inflight_preresolves_count_ < kMaxInflightPreresolves
      · rw [if_pos hlt]
        cases hj : alookup s.preresolve_jobs_ a with
        | none => exact ih s h
        | some job =>
            apply ih
            by_cases hc : jobCanceled s job.info
            · simp only [hc, Bool.not_true, if_neg, Bool.false_eq_true,
                not_false_eq_true, if_false]
              rw [inflight_decQueuedCount, inflight_dropJob]
              exact h
            · simp only [hc, Bool.not_false, if_true, Bool.false_eq_true,
                eq_self_iff_true, if_pos]
              rw [inflight_decQueuedCount, inflight_admitJob]
              omega
      · rw [if_neg hlt]
        exact h

theorem tryToLaunch_inflight_le (s : PMState)
    (h : s.inflight_preresolves_count_ ≤ kMaxInflightPreresolves) :
    (TryToLaunchPreresolveJobs s).inflight_preresolves_count_ ≤
      kMaxInflightPreresolves :=
  tryLoop_inflight_le s.queued_jobs_ s h

theorem foldl_inflight_invariant {β : Type} (f : PMState → β → PMState)
    (hf : ∀ a x, (f a x).inflight_preresolves_count_ =
      a.inflight_preresolves_count_) (l : List β) :
    ∀ acc : PMState, (l.foldl f acc).inflight_preresolves_count_ =
      acc.inflight_preresolves_count_ := by
  induction l with
  | nil => intro acc; rfl
  | cons x l ih => intro acc; rw [List.foldl_cons, ih, hf]

theorem inflight_removeFinished (s : PMState) (job_id : Nat) :
    (removeFinished s job_id).inflight_preresolves_count_ =
      s.inflight_preresolves_count_ := rfl

theorem inflight_recordStats (s : PMState) (job_id : Nat)
    (job : PreresolveJob) (found cached need_preconnect : Bool) :
    (recordStats s job_id job found cached
        need_preconnect).inflight_preresolves_count_ =
      s.inflight_preresolves_count_ := by
  unfold recordStats
  cases job.info with
  | none => rfl
  | some gid =>
      dsimp only
      split <;> rfl

theorem inflight_FinishPreresolve (s : PMState) (job_id : Nat)
    (found cached : Bool) :
    (FinishPreresolve s job_id found cached).inflight_preresolves_count_ =
      s.inflight_preresolves_count_ := by
  unfold FinishPreresolve
  cases alookup s.preresolve_jobs_ job_id with
  | none => rfl
  | some job =>
      dsimp only
      rw [inflight_removeFinished, inflight_recordStats]

theorem inflight_AllPreresolvesForUrlFinished (s : PMState) (gid : Nat) :
    (AllPreresolvesForUrlFinished s gid).inflight_preresolves_count_ =
      s.inflight_preresolves_count_ := by
  unfold AllPreresolvesForUrlFinished
  cases getInfo s gid with
  | none => rfl
  | some g =>
      dsimp only
      cases alookup s.preresolve_info_ g.url.host with
      | none => rfl
      | some gid2 => rfl

theorem inflight_decGroupInflight (s : PMState) (io : Option Nat) :
    (decGroupInflight s io).inflight_preresolves_count_ =
      s.inflight_preresolves_count_ := by
  cases io <;> rfl

theorem inflight_maybeFinalizeGroup (s : PMState) (io : Option Nat) :
    (maybeFinalizeGroup s io).inflight_preresolves_count_ =
      s.inflight_preresolves_count_ := by
  unfold maybeFinalizeGroup
  cases io with
  | none => rfl
  | some gid =>
      dsimp only
      cases getInfo s gid with
      | none => rfl
      | some g =>
          dsimp only
          split
          · rw [inflight_AllPreresolvesForUrlFinished]
          · rfl

theorem inflight_le_applyOp (s : PMState) (op : Op)
    (h : s.inflight_preresolves_count_ ≤ kMaxInflightPreresolves) :
    (applyOp s op).inflight_preresolves_count_ ≤ kMaxInflightPreresolves := by
  cases op with
  | start url requests =>
      show (Start s url requests).inflight_preresolves_count_ ≤ _
      unfold Start
      by_cases hdup : (alookup s.preresolve_info_ url.host).isSome
      · rw [if_pos hdup]; exact h
      · rw [if_neg hdup]
        apply tryToLaunch_inflight_le
        rw [foldl_inflight_invariant]
        · exact h
        · intro a x; rfl
  | startPreresolveHost url =>
      show (StartPreresolveHost s url).inflight_preresolves_count_ ≤ _
      unfold StartPreresolveHost
      by_cases hs : url.schemeIsHTTPOrHTTPS
      · simp only [hs, Bool.not_true, Bool.false_eq_true, if_false]
        exact tryToLaunch_inflight_le _ h
      · simp only [Bool.not_eq_true] at hs
        simp only [hs, Bool.not_false, if_true]
        exact h
  | startPreresolveHosts hostnames =>
      show (StartPreresolveHosts s hostnames).inflight_preresolves_count_ ≤ _
      unfold StartPreresolveHosts
      apply tryToLaunch_inflight_le
      rw [foldl_inflight_invariant]
      · exact h
      · intro a x; rfl
  | startPreconnectUrl url allow =>
      show (StartPreconnectUrl s url allow).inflight_preresolves_count_ ≤ _
      unfold StartPreconnectUrl
      by_cases hs : url.schemeIsHTTPOrHTTPS
      · simp only [hs, Bool.not_true, Bool.false_eq_true, if_false]
        exact tryToLaunch_inflight_le _ h
      · simp only [Bool.not_eq_true] at hs
        simp only [hs, Bool.not_false, if_true]
        exact h
  | stop url =>
      show (Stop s url).inflight_preresolves_count_ ≤ _
      unfold Stop
      cases alookup s.preresolve_info_ url.host with
      | none => exact h
      | some gid => exact h
  | complete job_id success =>
      show (completeOp s job_id success).inflight_preresolves_count_ ≤ _
      unfold completeOp
      cases alookup s.pending job_id with
      | none => exact h
      | some forced =>
          unfold OnPreresolveFinished
          cases alookup ({ s with pending := aremove s.pending job_id } :
              PMState).preresolve_jobs_ job_id with
          | none => exact h
          | some job =>
              dsimp only
              apply tryToLaunch_inflight_le
              rw [inflight_maybeFinalizeGroup, inflight_decGroupInflight]
              show (FinishPreresolve _ _ _ _).inflight_preresolves_count_ -
                1 ≤ _
              rw [inflight_FinishPreresolve]
              show s.inflight_preresolves_count_ - 1 ≤ _
              omega

/-- C1.  Over every sequence of public operations and completion callbacks,
run from a fresh manager, the global in-flight counter never exceeds the
fixed cap `kMaxInflightPreresolves`: `TryToLaunchPreresolveJobs` admits
queued jobs only while the count is strictly below the cap, and every other
step leaves the counter equal or lower. -/
theorem inflight_never_exceeds_cap (ctx : Bool) (ops : List Op) :
    (run ops (initState ctx)).inflight_preresolves_count_ ≤
      kMaxInflightPreresolves := by
  suffices hall : ∀ s : PMState,
      s.inflight_preresolves_count_ ≤ kMaxInflightPreresolves →
      (run ops s).inflight_preresolves_count_ ≤ kMaxInflightPreresolves by
    exact hall _ (Nat.zero_le _)
  induction ops with
  | nil => intro s h; exact h
  | cons op ops ih => intro s h; exact ih _ (inflight_le_applyOp s op h)


/-! ### Claim C3 machinery: cancellation suppresses preconnects.  The key
facts: `was_canceled` is monotone (set by `Stop`, preserved by every other
arena mutation, and arena entries are never removed), and the only producer
of `preconnect` events — `PreconnectUrlCall` inside `FinishPreresolve` —
is guarded by the flag for the event's own group. -/

/-- Count of network preconnect calls tagged with group `gid`. -/
def countPreFor (gid : Nat) (l : List Event) : Nat :=
  List.countP (isPreconnectFor gid) l

/-- The cancellation flag read through a raw arena (list) value. -/
def infoCanceledL (infos : List (Nat × PreresolveInfo)) (gid : Nat) : Bool :=
  match alookup infos gid with
  | some g => g.was_canceled
  | none => false

theorem infoCanceled_eq_L (s : PMState) (gid : Nat) :
    infoCanceled s gid = infoCanceledL s.infos gid := rfl

theorem infoCanceledL_aupdate_preserving (infos : List (Nat × PreresolveInfo))
    (k gid : Nat) (f : PreresolveInfo → PreresolveInfo)
    (hf : ∀ g, (f g).was_canceled = g.was_canceled) :
    infoCanceledL (aupdate infos k f) gid = infoCanceledL infos gid := by
  by_cases hk : k = gid
  · subst hk
    unfold infoCanceledL
    rw [alookup_aupdate_eq]
    cases alookup infos k with
    | none => rfl
    | some g => exact hf g
  · unfold infoCanceledL
    rw [alookup_aupdate_ne _ _ _ _ hk]

theorem infoCanceledL_aupdate_cancel (infos : List (Nat × PreresolveInfo))
    (k gid : Nat) (h : infoCanceledL infos gid = true) :
    infoCanceledL (aupdate infos k
      (fun g => { g with was_canceled := true })) gid = true := by
  by_cases hk : k = gid
  · subst hk
    unfold infoCanceledL at h ⊢
    rw [alookup_aupdate_eq]
    cases hv : alookup infos k with
    | none => rw [hv] at h; exact absurd h (by simp)
    | some g => rfl
  · unfold infoCanceledL at h ⊢
    rw [alookup_aupdate_ne _ _ _ _ hk]
    exact h

theorem infoCanceledL_append (infos l2 : List (Nat × PreresolveInfo))
    (gid : Nat) (h : infoCanceledL infos gid = true) :
    infoCanceledL (infos ++ l2) gid = true := by
  unfold infoCanceledL at h ⊢
  cases hv : alookup infos gid with
  | none => rw [hv] at h; exact absurd h (by simp)
  | some g =>
      rw [alookup_append_of_isSome _ _ _ (by rw [hv]; rfl), hv]
      rw [hv] at h
      exact h

/-- One state after another, seen from a cancelled group `gid`: the flag is
still set and no new preconnect tagged `gid` was logged. -/
def CancelStable (gid : Nat) (s s2 : PMState) : Prop :=
  infoCanceled s gid = true →
    (infoCanceled s2 gid = true ∧
     countPreFor gid s2.log = countPreFor gid s.log)

theorem cancelStable_trans (gid : Nat) (s s2 s3 : PMState)
    (h1 : CancelStable gid s s2) (h2 : CancelStable gid s2 s3) :
    CancelStable gid s s3 := by
  intro h
  obtain ⟨hc1, hl1⟩ := h1 h
  obtain ⟨hc2, hl2⟩ := h2 hc1
  exact ⟨hc2, hl2.trans hl1⟩

theorem countPreFor_append_nonpre (gid : Nat) (l l2 : List Event)
    (h : ∀ e ∈ l2, isPreconnectFor gid e = false) :
    countPreFor gid (l ++ l2) = countPreFor gid l := by
  unfold countPreFor
  rw [List.countP_append]
  have h0 : List.countP (isPreconnectFor gid) l2 = 0 := by
    rw [List.countP_eq_zero]
    intro e he
    simp [h e he]
  omega

/-- A state differing only outside `infos` and `log` is cancel-stable. -/
theorem cancelStable_of_same (gid : Nat) (s s2 : PMState)
    (hi : s2.infos = s.infos) (hl : s2.log = s.log) :
    CancelStable gid s s2 := by
  intro h
  constructor
  · rw [infoCanceled_eq_L, hi]
    exact h
  · unfold countPreFor
    rw [hl]

/-- Appending fresh arena entries and keeping the log is cancel-stable. -/
theorem cancelStable_of_append_infos (gid : Nat) (s s2 : PMState)
    (l2 : List (Nat × PreresolveInfo)) (hi : s2.infos = s.infos ++ l2)
    (hl : s2.log = s.log) : CancelStable gid s s2 := by
  intro h
  constructor
  · rw [infoCanceled_eq_L, hi]
    exact infoCanceledL_append _ _ _ h
  · unfold countPreFor
    rw [hl]

/-- Appending non-preconnect events (and possibly mutating `infos` through
a flag-preserving update) is cancel-stable. -/
theorem cancelStable_of_log_append (gid : Nat) (s s2 : PMState)
    (l2 : List Event) (hi : s2.infos = s.infos)
    (hl : s2.log = s.log ++ l2)
    (he : ∀ e ∈ l2, isPreconnectFor gid e = false) :
    CancelStable gid s s2 := by
  intro h
  constructor
  · rw [infoCanceled_eq_L, hi]
    exact h
  · rw [hl]
    exact countPreFor_append_nonpre gid _ _ he

/-- The event produced by `PreconnectUrlCall` is tagged with the group id
the call was made for. -/
theorem isPreconnectFor_preconnectUrlCall (gid : Nat) (ctx : Bool)
    (job_id : Nat) (io : Option Nat) (url : Url) (n : Nat) (allow : Bool)
    (e : Event) (h : PreconnectUrlCall ctx job_id io url n allow = some e) :
    isPreconnectFor gid e = decide (io = some gid) := by
  unfold PreconnectUrlCall at h
  by_cases hctx : ctx
  · rw [if_neg (by simp [hctx])] at h
    cases h
    rfl
  · rw [if_pos (by simp [hctx])] at h
    cases h

theorem cancelStable_admitJob (gid : Nat) (s : PMState) (job_id : Nat)
    (job : PreresolveJob) : CancelStable gid s (admitJob s job_id job) := by
  intro h
  constructor
  · rw [infoCanceled_eq_L] at h ⊢
    show infoCanceledL (admitJob s job_id job).infos gid = true
    unfold admitJob
    cases job.info with
    | none => exact h
    | some g2 =>
        dsimp only
        rw [infoCanceledL_aupdate_preserving]
        · exact h
        · intro g; rfl
  · show countPreFor gid (admitJob s job_id job).log = _
    unfold admitJob
    dsimp only
    rw [List.append_assoc]
    apply countPreFor_append_nonpre
    intro e he
    simp only [List.mem_append, List.mem_singleton] at he
    rcases he with he | he
    · subst he; rfl
    · cases hp : (PreresolveUrl s.ctx_available job_id).posted with
      | nil => rw [hp] at he; simp at he
      | cons a l2 =>
          rw [hp] at he
          simp only [List.mem_singleton] at he
          subst he; rfl

theorem cancelStable_dropJob (gid : Nat) (s : PMState) (job_id : Nat) :
    CancelStable gid s (dropJob s job_id) := by
  refine cancelStable_of_log_append gid s _ [Event.dropped job_id]
    rfl rfl ?_
  intro e he
  simp only [List.mem_singleton] at he
  subst he; rfl

theorem cancelStable_decQueuedCount (gid : Nat) (s : PMState)
    (io : Option Nat) : CancelStable gid s (decQueuedCount s io) := by
  intro h
  cases io with
  | none => exact ⟨h, rfl⟩
  | some g2 =>
      refine ⟨?_, rfl⟩
      rw [infoCanceled_eq_L] at h ⊢
      show infoCanceledL (aupdate s.infos g2 _) gid = true
      rw [infoCanceledL_aupdate_preserving]
      · exact h
      · intro g; rfl

theorem cancelStable_tryLoop (gid : Nat) (q : List Nat) :
    ∀ s : PMState, CancelStable gid s (tryLoop q s) := by
  induction q with
  | nil => intro s h; exact ⟨h, rfl⟩
  | cons a l ih =>
      intro s
      rw [tryLoop]
      by_cases hlt :
          s.inflight_preresolves_count_ < kMaxInflightPreresolves
      · rw [if_pos hlt]
        cases hj : alookup s.preresolve_jobs_ a with
        | none => exact ih s
        | some job =>
            dsimp only
            by_cases hc : jobCanceled s job.info
            · rw [hc]
              exact cancelStable_trans gid s _ _
                (cancelStable_trans gid s _ _ (cancelStable_dropJob gid s a)
                  (cancelStable_decQueuedCount gid _ job.info))
                (ih _)
            · rw [Bool.not_eq_true] at hc
              rw [hc]
              exact cancelStable_trans gid s _ _
                (cancelStable_trans gid s _ _
                  (cancelStable_admitJob gid s a job)
                  (cancelStable_decQueuedCount gid _ job.info))
                (ih _)
      · rw [if_neg hlt]
        intro h
        exact ⟨h, rfl⟩

theorem cancelStable_tryToLaunch (gid : Nat) (s : PMState) :
    CancelStable gid s (TryToLaunchPreresolveJobs s) :=
  cancelStable_tryLoop gid s.queued_jobs_ s

theorem cancelStable_appendStats (gid : Nat) (s : PMState)
    (job_id gid2 : Nat) (job : PreresolveJob) (cached np : Bool) :
    CancelStable gid s (appendStats s job_id gid2 job cached np) := by
  intro h
  constructor
  · rw [infoCanceled_eq_L] at h ⊢
    show infoCanceledL (aupdate s.infos gid2 _) gid = true
    rw [infoCanceledL_aupdate_preserving]
    · exact h
    · intro g; rfl
  · show countPreFor gid (s.log ++ _) = _
    apply countPreFor_append_nonpre
    intro e he
    simp only [List.mem_singleton] at he
    subst he; rfl

theorem cancelStable_recordStats (gid : Nat) (s : PMState) (job_id : Nat)
    (job : PreresolveJob) (found cached np : Bool) :
    CancelStable gid s (recordStats s job_id job found cached np) := by
  unfold recordStats
  cases job.info with
  | none => intro h; exact ⟨h, rfl⟩
  | some gid2 =>
      dsimp only
      split
      · exact cancelStable_appendStats gid s job_id gid2 job cached np
      · intro h; exact ⟨h, rfl⟩

theorem cancelStable_removeFinished (gid : Nat) (s : PMState)
    (job_id : Nat) : CancelStable gid s (removeFinished s job_id) := by
  refine cancelStable_of_log_append gid s _ [Event.finished job_id]
    rfl rfl ?_
  intro e he
  simp only [List.mem_singleton] at he
  subst he; rfl

theorem cancelStable_FinishPreresolve (gid : Nat) (s : PMState)
    (job_id : Nat) (found cached : Bool) :
    CancelStable gid s (FinishPreresolve s job_id found cached) := by
  unfold FinishPreresolve
  cases hj : alookup s.preresolve_jobs_ job_id with
  | none => intro h; exact ⟨h, rfl⟩
  | some job =>
      dsimp only
      intro h
      have hs1 : CancelStable gid s { s with log := s.log ++
          (if (found && job.need_preconnect && !jobCanceled s job.info) = true
            then (PreconnectUrlCall s.ctx_available job_id job.info job.url
              job.num_sockets job.allow_credentials).toList
            else []) } := by
        refine cancelStable_of_log_append gid s _ _ rfl rfl ?_
        intro e he
        by_cases hnp : (found && job.need_preconnect &&
            !jobCanceled s job.info) = true
        · rw [if_pos hnp] at he
          cases hpc : PreconnectUrlCall s.ctx_available job_id job.info
              job.url job.num_sockets job.allow_credentials with
          | none => rw [hpc] at he; simp [Option.toList] at he
          | some e2 =>
              rw [hpc] at he
              simp only [Option.toList, List.mem_singleton] at he
              subst he
              rw [isPreconnectFor_preconnectUrlCall gid _ _ _ _ _ _ _ hpc]
              have hcanc : jobCanceled s job.info = false := by
                cases hjc : jobCanceled s job.info
                · rfl
                · rw [hjc] at hnp; simp at hnp
              cases hio : job.info with
              | none => rfl
              | some gid2 =>
                  by_cases hg : gid2 = gid
                  · subst hg
                    rw [hio] at hcanc
                    simp only [jobCanceled] at hcanc
                    rw [h] at hcanc
                    simp at hcanc
                  · simp [hg]
        · rw [if_neg hnp] at he
          simp at he
      exact cancelStable_trans gid s _ _ hs1
        (cancelStable_trans gid _ _ _
          (cancelStable_recordStats gid _ job_id job found cached _)
          (cancelStable_removeFinished gid _ job_id)) h

theorem cancelStable_AllPreresolvesForUrlFinished (gid : Nat) (s : PMState)
    (gid2 : Nat) :
    CancelStable gid s (AllPreresolvesForUrlFinished s gid2) := by
  unfold AllPreresolvesForUrlFinished
  cases getInfo s gid2 with
  | none => intro h; exact ⟨h, rfl⟩
  | some g =>
      dsimp only
      cases alookup s.preresolve_info_ g.url.host with
      | none => intro h; exact ⟨h, rfl⟩
      | some gid3 =>
          refine cancelStable_of_log_append gid s _ [Event.report g.url
            g.stats] rfl rfl ?_
          intro e he
          simp only [List.mem_singleton] at he
          subst he; rfl

theorem cancelStable_decInflight (gid : Nat) (s : PMState) :
    CancelStable gid s (decInflight s) := by
  intro h
  exact ⟨h, rfl⟩

theorem cancelStable_decGroupInflight (gid : Nat) (s : PMState)
    (io : Option Nat) : CancelStable gid s (decGroupInflight s io) := by
  intro h
  cases io with
  | none => exact ⟨h, rfl⟩
  | some g2 =>
      refine ⟨?_, rfl⟩
      rw [infoCanceled_eq_L] at h ⊢
      show infoCanceledL (aupdate s.infos g2 _) gid = true
      rw [infoCanceledL_aupdate_preserving]
      · exact h
      · intro g; rfl

theorem cancelStable_maybeFinalizeGroup (gid : Nat) (s : PMState)
    (io : Option Nat) : CancelStable gid s (maybeFinalizeGroup s io) := by
  unfold maybeFinalizeGroup
  cases io with
  | none => intro h; exact ⟨h, rfl⟩
  | some gid2 =>
      dsimp only
      cases getInfo s gid2 with
      | none => intro h; exact ⟨h, rfl⟩
      | some g =>
          dsimp only
          split
          · exact cancelStable_AllPreresolvesForUrlFinished gid s gid2
          · intro h; exact ⟨h, rfl⟩

/-- `Start`'s per-request fold touches only the job table, the id counter
and the queue. -/
theorem start_fold_fields (gid0 : Nat) (requests : List PreconnectRequest) :
    ∀ acc : PMState,
      (List.foldl (fun acc request =>
        { acc with
          preresolve_jobs_ := acc.preresolve_jobs_ ++
            [(acc.next_job_id,
              { url := request.origin, num_sockets := request.num_sockets,
                allow_credentials := request.allow_credentials,
                info := some gid0 })],
          next_job_id := acc.next_job_id + 1,
          queued_jobs_ := acc.queued_jobs_ ++ [acc.next_job_id] })
        acc requests).infos = acc.infos ∧
      (List.foldl (fun acc request =>
        { acc with
          preresolve_jobs_ := acc.preresolve_jobs_ ++
            [(acc.next_job_id,
              { url := request.origin, num_sockets := request.num_sockets,
                allow_credentials := request.allow_credentials,
                info := some gid0 })],
          next_job_id := acc.next_job_id + 1,
          queued_jobs_ := acc.queued_jobs_ ++ [acc.next_job_id] })
        acc requests).log = acc.log ∧
      (List.foldl (fun acc request =>
        { acc with
          preresolve_jobs_ := acc.preresolve_jobs_ ++
            [(acc.next_job_id,
              { url := request.origin, num_sockets := request.num_sockets,
                allow_credentials := request.allow_credentials,
                info := some gid0 })],
          next_job_id := acc.next_job_id + 1,
          queued_jobs_ := acc.queued_jobs_ ++ [acc.next_job_id] })
        acc requests).pending = acc.pending ∧
      (List.foldl (fun acc request =>
        { acc with
          preresolve_jobs_ := acc.preresolve_jobs_ ++
            [(acc.next_job_id,
              { url := request.origin, num_sockets := request.num_sockets,
                allow_credentials := request.allow_credentials,
                info := some gid0 })],
          next_job_id := acc.next_job_id + 1,
          queued_jobs_ := acc.queued_jobs_ ++ [acc.next_job_id] })
        acc requests).ctx_available = acc.ctx_available ∧
      (List.foldl (fun acc request =>
        { acc with
          preresolve_jobs_ := acc.preresolve_jobs_ ++
            [(acc.next_job_id,
              { url := request.origin, num_sockets := request.num_sockets,
                allow_credentials := request.allow_credentials,
                info := some gid0 })],
          next_job_id := acc.next_job_id + 1,
          queued_jobs_ := acc.queued_jobs_ ++ [acc.next_job_id] })
        acc requests).preresolve_info_ = acc.preresolve_info_ ∧
      (List.foldl (fun acc request =>
        { acc with
          preresolve_jobs_ := acc.preresolve_jobs_ ++
            [(acc.next_job_id,
              { url := request.origin, num_sockets := request.num_sockets,
                allow_credentials := request.allow_credentials,
                info := some gid0 })],
          next_job_id := acc.next_job_id + 1,
          queued_jobs_ := acc.queued_jobs_ ++ [acc.next_job_id] })
        acc requests).inflight_preresolves_count_ =
          acc.inflight_preresolves_count_ := by
  induction requests with
  | nil => intro acc; exact ⟨rfl, rfl, rfl, rfl, rfl, rfl⟩
  | cons x l ih => intro acc; exact ih _

/-- `StartPreresolveHosts`'s fold touches only the job table, the id
counter and the queue. -/
theorem hosts_fold_fields (hostnames : List String) :
    ∀ acc : PMState,
      (List.foldl (fun acc hostname =>
        { acc with
          preresolve_jobs_ := acc.preresolve_jobs_ ++
            [(acc.next_job_id,
              { url := mkHttpUrl hostname, num_sockets := 0,
                allow_credentials := kAllowCredentialsOnPreconnectByDefault,
                info := none })],
          next_job_id := acc.next_job_id + 1,
          queued_jobs_ := acc.next_job_id :: acc.queued_jobs_ })
        acc hostnames).infos = acc.infos ∧
      (List.foldl (fun acc hostname =>
        { acc with
          preresolve_jobs_ := acc.preresolve_jobs_ ++
            [(acc.next_job_id,
              { url := mkHttpUrl hostname, num_sockets := 0,
                allow_credentials := kAllowCredentialsOnPreconnectByDefault,
                info := none })],
          next_job_id := acc.next_job_id + 1,
          queued_jobs_ := acc.next_job_id :: acc.queued_jobs_ })
        acc hostnames).log = acc.log ∧
      (List.foldl (fun acc hostname =>
        { acc with
          preresolve_jobs_ := acc.preresolve_jobs_ ++
            [(acc.next_job_id,
              { url := mkHttpUrl hostname, num_sockets := 0,
                allow_credentials := kAllowCredentialsOnPreconnectByDefault,
                info := none })],
          next_job_id := acc.next_job_id + 1,
          queued_jobs_ := acc.next_job_id :: acc.queued_jobs_ })
        acc hostnames).pending = acc.pending ∧
      (List.foldl (fun acc hostname =>
        { acc with
          preresolve_jobs_ := acc.preresolve_jobs_ ++
            [(acc.next_job_id,
              { url := mkHttpUrl hostname, num_sockets := 0,
                allow_credentials := kAllowCredentialsOnPreconnectByDefault,
                info := none })],
          next_job_id := acc.next_job_id + 1,
          queued_jobs_ := acc.next_job_id :: acc.queued_jobs_ })
        acc hostnames).ctx_available = acc.ctx_available ∧
      (List.foldl (fun acc hostname =>
        { acc with
          preresolve_jobs_ := acc.preresolve_jobs_ ++
            [(acc.next_job_id,
              { url := mkHttpUrl hostname, num_sockets := 0,
                allow_credentials := kAllowCredentialsOnPreconnectByDefault,
                info := none })],
          next_job_id := acc.next_job_id + 1,
          queued_jobs_ := acc.next_job_id :: acc.queued_jobs_ })
        acc hostnames).preresolve_info_ = acc.preresolve_info_ ∧
      (List.foldl (fun acc hostname =>
        { acc with
          preresolve_jobs_ := acc.preresolve_jobs_ ++
            [(acc.next_job_id,
              { url := mkHttpUrl hostname, num_sockets := 0,
                allow_credentials := kAllowCredentialsOnPreconnectByDefault,
                info := none })],
          next_job_id := acc.next_job_id + 1,
          queued_jobs_ := acc.next_job_id :: acc.queued_jobs_ })
        acc hostnames).inflight_preresolves_count_ =
          acc.inflight_preresolves_count_ := by
  induction hostnames with
  | nil => intro acc; exact ⟨rfl, rfl, rfl, rfl, rfl, rfl⟩
  | cons x l ih => intro acc; exact ih _

theorem cancelStable_applyOp (gid : Nat) (s : PMState) (op : Op) :
    CancelStable gid s (applyOp s op) := by
  cases op with
  | start url requests =>
      show CancelStable gid s (Start s url requests)
      unfold Start
      by_cases hdup : (alookup s.preresolve_info_ url.host).isSome
      · rw [if_pos hdup]; intro h; exact ⟨h, rfl⟩
      · rw [if_neg hdup]
        dsimp only
        refine cancelStable_trans gid s _ _ ?_
          (cancelStable_tryToLaunch gid _)
        exact cancelStable_of_append_infos gid s _ _
          (start_fold_fields s.next_info_id requests _).1
          (start_fold_fields s.next_info_id requests _).2.1
  | startPreresolveHost url =>
      show CancelStable gid s (StartPreresolveHost s url)
      unfold StartPreresolveHost
      by_cases hs : url.schemeIsHTTPOrHTTPS
      · simp only [hs, Bool.not_true, Bool.false_eq_true, if_false]
        refine cancelStable_trans gid s _ _ ?_
          (cancelStable_tryToLaunch gid _)
        exact cancelStable_of_same gid s _ rfl rfl
      · simp only [Bool.not_eq_true] at hs
        simp only [hs, Bool.not_false, if_true]
        intro h; exact ⟨h, rfl⟩
  | startPreresolveHosts hostnames =>
      show CancelStable gid s (StartPreresolveHosts s hostnames)
      unfold StartPreresolveHosts
      dsimp only
      refine cancelStable_trans gid s _ _ ?_
        (cancelStable_tryToLaunch gid _)
      exact cancelStable_of_same gid s _
        (hosts_fold_fields hostnames.reverse _).1
        (hosts_fold_fields hostnames.reverse _).2.1
  | startPreconnectUrl url allow =>
      show CancelStable gid s (StartPreconnectUrl s url allow)
      unfold StartPreconnectUrl
      by_cases hs : url.schemeIsHTTPOrHTTPS
      · simp only [hs, Bool.not_true, Bool.false_eq_true, if_false]
        refine cancelStable_trans gid s _ _ ?_
          (cancelStable_tryToLaunch gid _)
        exact cancelStable_of_same gid s _ rfl rfl
      · simp only [Bool.not_eq_true] at hs
        simp only [hs, Bool.not_false, if_true]
        intro h; exact ⟨h, rfl⟩
  | stop url =>
      show CancelStable gid s (Stop s url)
      unfold Stop
      cases alookup s.preresolve_info_ url.host with
      | none => intro h; exact ⟨h, rfl⟩
      | some gid2 =>
          intro h
          refine ⟨?_, rfl⟩
          rw [infoCanceled_eq_L] at h ⊢
          exact infoCanceledL_aupdate_cancel _ _ _ h
  | complete job_id success =>
      show CancelStable gid s (completeOp s job_id success)
      unfold completeOp
      cases alookup s.pending job_id with
      | none => intro h; exact ⟨h, rfl⟩
      | some forced =>
          unfold OnPreresolveFinished
          cases alookup ({ s with pending := aremove s.pending job_id } :
              PMState).preresolve_jobs_ job_id with
          | none => intro h; exact ⟨h, rfl⟩
          | some job =>
              dsimp only
              refine cancelStable_trans gid s _ _ ?_
                (cancelStable_tryToLaunch gid _)
              refine cancelStable_trans gid s _ _ ?_
                (cancelStable_maybeFinalizeGroup gid _ job.info)
              refine cancelStable_trans gid s _ _ ?_
                (cancelStable_decGroupInflight gid _ job.info)
              refine cancelStable_trans gid s _ _ ?_
                (cancelStable_decInflight gid _)
              refine cancelStable_trans gid s _ _ ?_
                (cancelStable_FinishPreresolve gid _ job_id _ false)
              refine cancelStable_of_log_append gid s _
                [Event.resolveFinishedObs job_id (forced.getD success)]
                rfl rfl ?_
              intro e he
              simp only [List.mem_singleton] at he
              subst he; rfl

theorem cancelStable_run (gid : Nat) (ops : List Op) :
    ∀ s : PMState, CancelStable gid s (run ops s) := by
  induction ops with
  | nil => intro s h; exact ⟨h, rfl⟩
  | cons op ops ih =>
      intro s
      exact cancelStable_trans gid s (applyOp s op) _
        (cancelStable_applyOp gid s op) (ih _)

/-- A state holding one active (not cancelled) navigation group for host
`a` with a single queued job's worth of bookkeeping. -/
def sWithGroupA : PMState :=
  { initState true with
      preresolve_info_ := [("a", 0)],
      infos := [(0, { url := mkHttpUrl "a", queued_count := 1,
                      inflight_count := 0, was_canceled := false,
                      stats := { url := mkHttpUrl "a",
                                 requests_stats := [] } })],
      next_info_id := 1 }

/-- C3.  `Stop(url)` on a host whose group `gid` is active marks that group
cancelled, makes no outbound call itself, and from then on no network
preconnect is ever issued for any job belonging to that group (preconnect
events tagged `gid`), over every continuation of operations and completion
deliveries — even ones in which the group's resolves later succeed: the
cancellation flag suppresses the preconnect side-effect in
`FinishPreresolve`, and not-yet-admitted jobs are dropped in
`TryToLaunchPreresolveJobs`. -/
theorem stop_suppresses_group_preconnects (s : PMState) (url : Url)
    (gid : Nat) (hmap : alookup s.preresolve_info_ url.host = some gid)
    (hin : (getInfo s gid).isSome = true) (ops : List Op) :
    infoCanceled (Stop s url) gid = true ∧
    (Stop s url).log = s.log ∧
    countPreFor gid (run ops (Stop s url)).log =
      countPreFor gid s.log := by
  have hstop : infoCanceled (Stop s url) gid = true := by
    unfold Stop
    rw [hmap]
    dsimp only
    rw [infoCanceled_eq_L]
    show infoCanceledL (aupdate s.infos gid _) gid = true
    unfold infoCanceledL
    rw [alookup_aupdate_eq]
    cases hv : alookup s.infos gid with
    | none =>
        unfold getInfo at hin
        rw [hv] at hin
        exact absurd hin (by simp)
    | some g => rfl
  have hlog : (Stop s url).log = s.log := by
    unfold Stop
    rw [hmap]
  refine ⟨hstop, hlog, ?_⟩
  obtain ⟨hc, hl⟩ := cancelStable_run gid ops (Stop s url) hstop
  rw [hl]
  unfold countPreFor
  rw [hlog]

/-- Witness for `stop_suppresses_group_preconnects`: stopping the active
group of `sWithGroupA` and then running a further operation. -/
theorem stop_suppresses_group_preconnects_witness :
    infoCanceled (Stop sWithGroupA (mkHttpUrl "a")) 0 = true ∧
    (Stop sWithGroupA (mkHttpUrl "a")).log = sWithGroupA.log ∧
    countPreFor 0 (run [Op.complete 0 true]
        (Stop sWithGroupA (mkHttpUrl "a"))).log =
      countPreFor 0 sWithGroupA.log :=
  stop_suppresses_group_preconnects sWithGroupA (mkHttpUrl "a") 0
    (by decide) (by decide) [Op.complete 0 true]


/-! ### Claim C8 machinery: unavailable gateway degrades to an
asynchronous failure -/

/-- Is the event the delivery of a resolve completion callback
(`OnPreresolveFinished` entered)? -/
def isCompletionEvt : Event → Bool := fun e =>
  match e with
  | .resolveFinishedObs _ _ => true
  | _ => false

/-- Completion-callback deliveries in the log. -/
def countObs (l : List Event) : Nat := List.countP isCompletionEvt l

theorem countP_append_none (p : Event → Bool) (l l2 : List Event)
    (h : ∀ e ∈ l2, p e = false) :
    List.countP p (l ++ l2) = List.countP p l := by
  rw [List.countP_append]
  have h0 : List.countP p l2 = 0 := by
    rw [List.countP_eq_zero]
    intro e he
    simp [h e he]
  omega

theorem countObs_tryLoop (q : List Nat) :
    ∀ s : PMState, countObs (tryLoop q s).log = countObs s.log := by
  induction q with
  | nil => intro s; rfl
  | cons a l ih =>
      intro s
      rw [tryLoop]
      by_cases hlt :
          s.inflight_preresolves_count_ < kMaxInflightPreresolves
      · rw [if_pos hlt]
        cases hj : alookup s.preresolve_jobs_ a with
        | none => exact ih s
        | some job =>
            dsimp only
            by_cases hc : jobCanceled s job.info
            · rw [hc]
              rw [ih _]
              have h1 : (decQueuedCount (dropJob s a) job.info).log =
                  (dropJob s a).log := by
                cases job.info <;> rfl
              show countObs (decQueuedCount (dropJob s a) job.info).log = _
              rw [h1]
              show countObs (s.log ++ [Event.dropped a]) = _
              apply countP_append_none
              intro e he
              simp only [List.mem_singleton] at he
              subst he; rfl
            · rw [Bool.not_eq_true] at hc
              rw [hc]
              rw [ih _]
              have h1 : (decQueuedCount (admitJob s a job) job.info).log =
                  (admitJob s a job).log := by
                cases job.info <;> rfl
              show countObs (decQueuedCount (admitJob s a job) job.info).log
                = _
              rw [h1]
              show countObs (s.log ++ [Event.admitted a job.url] ++ _) = _
              rw [List.append_assoc]
              apply countP_append_none
              intro e he
              simp only [List.mem_append, List.mem_singleton] at he
              rcases he with he | he
              · subst he; rfl
              · cases hp : (PreresolveUrl s.ctx_available a).posted with
                | nil => rw [hp] at he; simp at he
                | cons b l2 =>
                    rw [hp] at he
                    simp only [List.mem_singleton] at he
                    subst he; rfl
      · rw [if_neg hlt]

theorem countObs_tryToLaunch (s : PMState) :
    countObs (TryToLaunchPreresolveJobs s).log = countObs s.log :=
  countObs_tryLoop s.queued_jobs_ s

/-- None of the five public entry points ever runs a completion callback
within its own call — callbacks only run in a separate turn (a `complete`
step), so the posted failure of an unavailable gateway is always delivered
asynchronously. -/
theorem countObs_entry_points (s : PMState) (url : Url)
    (requests : List PreconnectRequest) (hostnames : List String)
    (allow : Bool) :
    countObs (Start s url requests).log = countObs s.log ∧
    countObs (StartPreresolveHost s url).log = countObs s.log ∧
    countObs (StartPreresolveHosts s hostnames).log = countObs s.log ∧
    countObs (StartPreconnectUrl s url allow).log = countObs s.log ∧
    countObs (Stop s url).log = countObs s.log := by
  refine ⟨?_, ?_, ?_, ?_, ?_⟩
  · unfold Start
    by_cases hdup : (alookup s.preresolve_info_ url.host).isSome
    · rw [if_pos hdup]
    · rw [if_neg hdup]
      dsimp only
      rw [countObs_tryToLaunch]
      unfold countObs
      rw [(start_fold_fields s.next_info_id requests _).2.1]
  · unfold StartPreresolveHost
    by_cases hs : url.schemeIsHTTPOrHTTPS
    · simp only [hs, Bool.not_true, Bool.false_eq_true, if_false]
      rw [countObs_tryToLaunch]
    · simp only [Bool.not_eq_true] at hs
      simp only [hs, Bool.not_false, if_true]
  · unfold StartPreresolveHosts
    dsimp only
    rw [countObs_tryToLaunch]
    unfold countObs
    rw [(hosts_fold_fields hostnames.reverse _).2.1]
  · unfold StartPreconnectUrl
    by_cases hs : url.schemeIsHTTPOrHTTPS
    · simp only [hs, Bool.not_true, Bool.false_eq_true, if_false]
      rw [countObs_tryToLaunch]
    · simp only [Bool.not_eq_true] at hs
      simp only [hs, Bool.not_false, if_true]
  · unfold Stop
    cases alookup s.preresolve_info_ url.host with
    | none => rfl
    | some gid => rfl

/-- How one step changes the pending-callback list: the gateway
configuration bit is untouched, and every new entry carries the forced
value determined by it (`none` when a resolve client was created,
`some false` when the callback was posted because no context was
available). -/
def PendStep (s s2 : PMState) : Prop :=
  s2.ctx_available = s.ctx_available ∧
  ∀ p ∈ s2.pending, p ∈ s.pending ∨
    p.2 = (if s.ctx_available then none else some false)

theorem pendStep_refl (s : PMState) : PendStep s s :=
  ⟨rfl, fun p hp => Or.inl hp⟩

theorem pendStep_trans (s s2 s3 : PMState) (h1 : PendStep s s2)
    (h2 : PendStep s2 s3) : PendStep s s3 := by
  obtain ⟨hc1, hm1⟩ := h1
  obtain ⟨hc2, hm2⟩ := h2
  refine ⟨hc2.trans hc1, ?_⟩
  intro p hp
  rcases hm2 p hp with hp2 | hp2
  · exact hm1 p hp2
  · rw [hc1] at hp2
    exact Or.inr hp2

/-- A state with the same `ctx_available` and `pending` fields. -/
theorem pendStep_of_same (s s2 : PMState)
    (hc : s2.ctx_available = s.ctx_available)
    (hp : s2.pending = s.pending) : PendStep s s2 := by
  refine ⟨hc, ?_⟩
  intro p hmem
  rw [hp] at hmem
  exact Or.inl hmem

theorem mem_aremove {κ α : Type} [DecidableEq κ] (l : List (κ × α)) (k : κ)
    (p : κ × α) (h : p ∈ aremove l k) : p ∈ l := by
  induction l with
  | nil => simpa [aremove] using h
  | cons q l ih =>
      unfold aremove at h
      by_cases hq : q.1 = k
      · rw [if_pos hq] at h
        exact List.mem_cons_of_mem q (ih h)
      · rw [if_neg hq] at h
        rcases List.mem_cons.mp h with h2 | h2
        · exact h2 ▸ List.mem_cons_self q l
        · exact List.mem_cons_of_mem q (ih h2)

theorem pendStep_admitJob (s : PMState) (job_id : Nat)
    (job : PreresolveJob) : PendStep s (admitJob s job_id job) := by
  refine ⟨rfl, ?_⟩
  intro p hp
  unfold admitJob at hp
  dsimp only at hp
  rcases List.mem_append.mp hp with h2 | h2
  · exact Or.inl h2
  · simp only [List.mem_singleton] at h2
    subst h2
    right
    cases hctx : s.ctx_available <;> rfl

theorem pendStep_recordStats (s : PMState) (job_id : Nat)
    (job : PreresolveJob) (found cached np : Bool) :
    PendStep s (recordStats s job_id job found cached np) := by
  unfold recordStats
  cases job.info with
  | none => exact pendStep_refl s
  | some gid =>
      dsimp only
      split
      · exact pendStep_of_same s _ rfl rfl
      · exact pendStep_refl s

theorem pendStep_tryLoop (q : List Nat) :
    ∀ s : PMState, PendStep s (tryLoop q s) := by
  induction q with
  | nil => intro s; exact pendStep_of_same s _ rfl rfl
  | cons a l ih =>
      intro s
      rw [tryLoop]
      by_cases hlt :
          s.inflight_preresolves_count_ < kMaxInflightPreresolves
      · rw [if_pos hlt]
        cases hj : alookup s.preresolve_jobs_ a with
        | none => exact ih s
        | some job =>
            dsimp only
            by_cases hc : jobCanceled s job.info
            · rw [hc]
              refine pendStep_trans s _ _ ?_ (ih _)
              refine pendStep_trans s _ _
                (pendStep_of_same s (dropJob s a) rfl rfl) ?_
              cases job.info with
              | none => exact pendStep_refl _
              | some gid => exact pendStep_of_same _ _ rfl rfl
            · rw [Bool.not_eq_true] at hc
              rw [hc]
              refine pendStep_trans s _ _ ?_ (ih _)
              refine pendStep_trans s _ _ (pendStep_admitJob s a job) ?_
              cases job.info with
              | none => exact pendStep_refl _
              | some gid => exact pendStep_of_same _ _ rfl rfl
      · rw [if_neg hlt]
        exact pendStep_of_same s _ rfl rfl

theorem pendStep_tryToLaunch (s : PMState) :
    PendStep s (TryToLaunchPreresolveJobs s) :=
  pendStep_tryLoop s.queued_jobs_ s

theorem pendStep_FinishPreresolve (s : PMState) (job_id : Nat)
    (found cached : Bool) :
    PendStep s (FinishPreresolve s job_id found cached) := by
  unfold FinishPreresolve
  cases hj : alookup s.preresolve_jobs_ job_id with
  | none => exact pendStep_refl s
  | some job =>
      dsimp only
      refine pendStep_trans s _ _ ?_ (pendStep_trans _ _ _
        (pendStep_recordStats _ job_id job _ cached _)
        (pendStep_of_same _ _ rfl rfl))
      exact pendStep_of_same s _ rfl rfl

theorem pendStep_AllPreresolvesForUrlFinished (s : PMState) (gid : Nat) :
    PendStep s (AllPreresolvesForUrlFinished s gid) := by
  unfold AllPreresolvesForUrlFinished
  cases getInfo s gid with
  | none => exact pendStep_refl s
  | some g =>
      dsimp only
      cases alookup s.preresolve_info_ g.url.host with
      | none => exact pendStep_refl s
      | some gid2 => exact pendStep_of_same s _ rfl rfl

theorem pendStep_maybeFinalizeGroup (s : PMState) (io : Option Nat) :
    PendStep s (maybeFinalizeGroup s io) := by
  unfold maybeFinalizeGroup
  cases io with
  | none => exact pendStep_refl s
  | some gid =>
      dsimp only
      cases getInfo s gid with
      | none => exact pendStep_refl s
      | some g =>
          dsimp only
          split
          · exact pendStep_AllPreresolvesForUrlFinished s gid
          · exact pendStep_refl s

theorem pendStep_applyOp (s : PMState) (op : Op) :
    PendStep s (applyOp s op) := by
  cases op with
  | start url requests =>
      show PendStep s (Start s url requests)
      unfold Start
      by_cases hdup : (alookup s.preresolve_info_ url.host).isSome
      · rw [if_pos hdup]; exact pendStep_refl s
      · rw [if_neg hdup]
        dsimp only
        refine pendStep_trans s _ _ ?_ (pendStep_tryToLaunch _)
        exact pendStep_of_same s _
          (start_fold_fields s.next_info_id requests _).2.2.2.1
          (start_fold_fields s.next_info_id requests _).2.2.1
  | startPreresolveHost url =>
      show PendStep s (StartPreresolveHost s url)
      unfold StartPreresolveHost
      by_cases hs : url.schemeIsHTTPOrHTTPS
      · simp only [hs, Bool.not_true, Bool.false_eq_true, if_false]
        refine pendStep_trans s _ _ ?_ (pendStep_tryToLaunch _)
        exact pendStep_of_same s _ rfl rfl
      · simp only [Bool.not_eq_true] at hs
        simp only [hs, Bool.not_false, if_true]
        exact pendStep_refl s
  | startPreresolveHosts hostnames =>
      show PendStep s (StartPreresolveHosts s hostnames)
      unfold StartPreresolveHosts
      dsimp only
      refine pendStep_trans s _ _ ?_ (pendStep_tryToLaunch _)
      exact pendStep_of_same s _
        (hosts_fold_fields hostnames.reverse _).2.2.2.1
        (hosts_fold_fields hostnames.reverse _).2.2.1
  | startPreconnectUrl url allow =>
      show PendStep s (StartPreconnectUrl s url allow)
      unfold StartPreconnectUrl
      by_cases hs : url.schemeIsHTTPOrHTTPS
      · simp only [hs, Bool.not_true, Bool.false_eq_true, if_false]
        refine pendStep_trans s _ _ ?_ (pendStep_tryToLaunch _)
        exact pendStep_of_same s _ rfl rfl
      · simp only [Bool.not_eq_true] at hs
        simp only [hs, Bool.not_false, if_true]
        exact pendStep_refl s
  | stop url =>
      show PendStep s (Stop s url)
      unfold Stop
      cases alookup s.preresolve_info_ url.host with
      | none => exact pendStep_refl s
      | some gid => exact pendStep_of_same s _ rfl rfl
  | complete job_id success =>
      show PendStep s (completeOp s job_id success)
      unfold completeOp
      cases alookup s.pending job_id with
      | none => exact pendStep_refl s
      | some forced =>
          unfold OnPreresolveFinished
          have hrem :
              PendStep s
                ({ s with pending := aremove s.pending job_id } : PMState) := by
            refine ⟨rfl, ?_⟩
            intro p hp
            exact Or.inl (mem_aremove _ _ _ hp)
          cases alookup ({ s with pending := aremove s.pending job_id } :
              PMState).preresolve_jobs_ job_id with
          | none => exact hrem
          | some job =>
              dsimp only
              refine pendStep_trans s _ _ ?_ (pendStep_tryToLaunch _)
              refine pendStep_trans s _ _ ?_
                (pendStep_maybeFinalizeGroup _ job.info)
              have hdg : ∀ s2 : PMState,
                  PendStep s2 (decGroupInflight s2 job.info) := by
                intro s2
                cases job.info with
                | none => exact pendStep_refl _
                | some gid => exact pendStep_of_same _ _ rfl rfl
              refine pendStep_trans s _ _ ?_ (hdg _)
              refine pendStep_trans s _ _ ?_
                (pendStep_of_same (FinishPreresolve _ job_id _ false)
                  (decInflight _) rfl rfl)
              refine pendStep_trans s _ _ hrem ?_
              refine pendStep_trans _ _ _ ?_
                (pendStep_FinishPreresolve _ job_id _ false)
              exact pendStep_of_same _ _ rfl rfl

/-- Every outstanding callback of a manager whose gateway is unavailable
was posted with a forced failure. -/
theorem pending_forced_when_gateway_unavailable (ops : List Op) :
    ∀ p ∈ (run ops (initState false)).pending, p.2 = some false := by
  suffices hall : ∀ s : PMState, s.ctx_available = false →
      (∀ p ∈ s.pending, p.2 = some false) →
      ((run ops s).ctx_available = false ∧
       ∀ p ∈ (run ops s).pending, p.2 = some false) by
    intro p hp
    exact (hall (initState false) rfl (by intro p2 hp2; simp [initState] at hp2)).2 p hp
  induction ops with
  | nil => intro s hc hp; exact ⟨hc, hp⟩
  | cons op ops ih =>
      intro s hc hp
      obtain ⟨hc2, hm2⟩ := pendStep_applyOp s op
      refine ih (applyOp s op) (hc2.trans hc) ?_
      intro p hmem
      rcases hm2 p hmem with h2 | h2
      · exact hp p h2
      · rw [hc] at h2
        simpa using h2

/-- C8.  When the network context handle cannot be obtained, `PreresolveUrl`
neither runs nor drops the completion callback: (1) it creates no resolve
client and posts exactly one task holding the callback bound to
`success = false`; (2) no public entry point (in particular the one that
just admitted the job) ever delivers a completion callback within its own
call — deliveries happen only in a separate `complete` turn; (3) in every
run of a manager without a network context, every outstanding callback is
one of these forced-failure posts; and (4) delivering such a callback runs
`OnPreresolveFinished` with `success = false`, i.e. the job flows through
normal completion handling as a ResolveFailure. -/
theorem gateway_unavailable_async_failure :
    (∀ job_id : Nat, PreresolveUrl false job_id =
        { client := none, posted := [(job_id, false)] }) ∧
    (∀ (s : PMState) (url : Url) (requests : List PreconnectRequest)
        (hostnames : List String) (allow : Bool),
      countObs (Start s url requests).log = countObs s.log ∧
      countObs (StartPreresolveHost s url).log = countObs s.log ∧
      countObs (StartPreresolveHosts s hostnames).log = countObs s.log ∧
      countObs (StartPreconnectUrl s url allow).log = countObs s.log ∧
      countObs (Stop s url).log = countObs s.log) ∧
    (∀ ops : List Op, ∀ p ∈ (run ops (initState false)).pending,
      p.2 = some false) ∧
    (∀ (s : PMState) (job_id : Nat) (b : Bool),
      alookup s.pending job_id = some (some false) →
      completeOp s job_id b =
        OnPreresolveFinished
          { s with pending := aremove s.pending job_id } job_id false) := by
  refine ⟨?_, ?_, pending_forced_when_gateway_unavailable, ?_⟩
  · intro job_id; rfl
  · intro s url requests hostnames allow
    exact countObs_entry_points s url requests hostnames allow
  · intro s job_id b h
    unfold completeOp
    rw [h]
    rfl

/-- A gateway-less manager holding one forced-failure callback for job 0. -/
def sPend : PMState :=
  { initState false with
      pending := [(0, some false)],
      preresolve_jobs_ := [(0,
        { url := mkHttpUrl "p", num_sockets := 1,
          allow_credentials := true, info := none })],
      next_job_id := 1,
      inflight_preresolves_count_ := 1 }

/-- Witness for `gateway_unavailable_async_failure`. -/
theorem gateway_unavailable_async_failure_witness :
    PreresolveUrl false 7 = { client := none, posted := [(7, false)] } ∧
    countObs (Stop sPend (mkHttpUrl "a")).log = countObs sPend.log ∧
    ((0 : Nat), some false).2 = some false ∧
    completeOp sPend 0 true =
      OnPreresolveFinished
        { sPend with pending := aremove sPend.pending 0 } 0 false := by
  have h := gateway_unavailable_async_failure
  refine ⟨h.1 7, (h.2.1 sPend (mkHttpUrl "a") [] [] true).2.2.2.2, ?_,
    h.2.2.2 sPend 0 true (by decide)⟩
  exact h.2.2.1 [Op.startPreresolveHost (mkHttpUrl "p")] (0, some false)
    (by decide)

end PreconnectManager

namespace PreconnectManager

/-! ### Claim C7 machinery: per-job lifecycle phases -/

/-- Resolve submitted for job `id`. -/
def isAdmitFor (id : Nat) : Event → Bool
  | .admitted j _ => j == id
  | _ => false

/-- Job `id` dropped in `TryToLaunchPreresolveJobs`. -/
def isDropFor (id : Nat) : Event → Bool
  | .dropped j => j == id
  | _ => false

/-- Job `id` removed at the end of `FinishPreresolve`. -/
def isFinFor (id : Nat) : Event → Bool
  | .finished j => j == id
  | _ => false

/-- Network preconnect submitted for job `id`. -/
def isPreFor (id : Nat) : Event → Bool
  | .preconnect j _ _ _ _ _ => j == id
  | _ => false

/-- Stats record appended for job `id`. -/
def isStatsFor (id : Nat) : Event → Bool
  | .statsRecord j _ _ => j == id
  | _ => false

/-- Any event about job `id`. -/
def mentionsJob (id : Nat) : Event → Bool
  | .admitted j _ => j == id
  | .postedFailure j => j == id
  | .resolveFinishedObs j _ => j == id
  | .preconnect j _ _ _ _ _ => j == id
  | .statsRecord j _ _ => j == id
  | .dropped j => j == id
  | .finished j => j == id
  | .report _ _ => false

/-- `countP` over a one-element extension. -/
theorem countP_snoc (p : Event → Bool) (l : List Event) (e : Event) :
    List.countP p (l ++ [e]) =
      List.countP p l + (if p e then 1 else 0) := by
  rw [List.countP_append]
  simp [List.countP_cons]

theorem count_le_mentions (p : Event → Bool) (id : Nat) (l : List Event)
    (h : ∀ e, p e = true → mentionsJob id e = true) :
    List.countP p l ≤ List.countP (mentionsJob id) l :=
  List.countP_mono_left (fun e _ hp => h e hp)

theorem isAdmitFor_mentions (id : Nat) (e : Event)
    (h : isAdmitFor id e = true) : mentionsJob id e = true := by
  cases e <;> simp [isAdmitFor, mentionsJob] at h ⊢ <;> exact h

theorem isDropFor_mentions (id : Nat) (e : Event)
    (h : isDropFor id e = true) : mentionsJob id e = true := by
  cases e <;> simp [isDropFor, mentionsJob] at h ⊢ <;> exact h

theorem isFinFor_mentions (id : Nat) (e : Event)
    (h : isFinFor id e = true) : mentionsJob id e = true := by
  cases e <;> simp [isFinFor, mentionsJob] at h ⊢ <;> exact h

theorem isPreFor_mentions (id : Nat) (e : Event)
    (h : isPreFor id e = true) : mentionsJob id e = true := by
  cases e <;> simp [isPreFor, mentionsJob] at h ⊢ <;> exact h

theorem isStatsFor_mentions (id : Nat) (e : Event)
    (h : isStatsFor id e = true) : mentionsJob id e = true := by
  cases e <;> simp [isStatsFor, mentionsJob] at h ⊢ <;> exact h

/-- The job table holds an entry for `id`. -/
def tableHas (s : PMState) (id : Nat) : Prop :=
  (alookup s.preresolve_jobs_ id).isSome = true

/-- The network layer holds a callback for `id`. -/
def pendingHas (s : PMState) (id : Nat) : Prop :=
  (alookup s.pending id).isSome = true

/-- The lifecycle phase of job id `id` in state `s`, together with the
event-log bookkeeping each phase implies.  Every id is in exactly the
situation of one disjunct: not yet allocated; queued (created, in the
table and the queue, no events); in flight (admitted once, callback held
by the network layer); dropped (removed in `TryToLaunchPreresolveJobs`
without any resolve or preconnect ever submitted); or finished (admitted
once, removed once by `FinishPreresolve`, with at most one preconnect and
at most one stats record). -/
def JobPhase (s : PMState) (id : Nat) : Prop :=
  (s.next_job_id ≤ id ∧ ¬tableHas s id ∧ ¬pendingHas s id ∧
    id ∉ s.queued_jobs_ ∧ List.countP (mentionsJob id) s.log = 0)
  ∨ (tableHas s id ∧ id ∈ s.queued_jobs_ ∧ ¬pendingHas s id ∧
      id < s.next_job_id ∧
      List.countP (isAdmitFor id) s.log = 0 ∧
      List.countP (isDropFor id) s.log = 0 ∧
      List.countP (isFinFor id) s.log = 0 ∧
      List.countP (isPreFor id) s.log = 0 ∧
      List.countP (isStatsFor id) s.log = 0)
  ∨ (tableHas s id ∧ id ∉ s.queued_jobs_ ∧ pendingHas s id ∧
      id < s.next_job_id ∧
      List.countP (isAdmitFor id) s.log = 1 ∧
      List.countP (isDropFor id) s.log = 0 ∧
      List.countP (isFinFor id) s.log = 0 ∧
      List.countP (isPreFor id) s.log = 0 ∧
      List.countP (isStatsFor id) s.log = 0)
  ∨ (¬tableHas s id ∧ id ∉ s.queued_jobs_ ∧ ¬pendingHas s id ∧
      id < s.next_job_id ∧
      List.countP (isAdmitFor id) s.log = 0 ∧
      List.countP (isDropFor id) s.log = 1 ∧
      List.countP (isFinFor id) s.log = 0 ∧
      List.countP (isPreFor id) s.log = 0 ∧
      List.countP (isStatsFor id) s.log = 0)
  ∨ (¬tableHas s id ∧ id ∉ s.queued_jobs_ ∧ ¬pendingHas s id ∧
      id < s.next_job_id ∧
      List.countP (isAdmitFor id) s.log = 1 ∧
      List.countP (isDropFor id) s.log = 0 ∧
      List.countP (isFinFor id) s.log = 1 ∧
      List.countP (isPreFor id) s.log ≤ 1 ∧
      List.countP (isStatsFor id) s.log ≤ 1)

/-- The per-job invariant of the manager: the queue has no duplicate ids
and every id is in a well-formed phase. -/
def JInv (s : PMState) : Prop :=
  s.queued_jobs_.Nodup ∧ ∀ id : Nat, JobPhase s id

theorem JInv_init (ctx : Bool) : JInv (initState ctx) := by
  constructor
  · simp [initState]
  · intro id
    left
    refine ⟨Nat.zero_le id, ?_, ?_, ?_, rfl⟩
    · simp [tableHas, initState, alookup]
    · simp [pendingHas, initState, alookup]
    · simp [initState]

/-- All five per-job counters vanish when nothing mentions the job. -/
theorem counts_zero_of_mentions_zero (id : Nat) (l : List Event)
    (h : List.countP (mentionsJob id) l = 0) :
    List.countP (isAdmitFor id) l = 0 ∧
    List.countP (isDropFor id) l = 0 ∧
    List.countP (isFinFor id) l = 0 ∧
    List.countP (isPreFor id) l = 0 ∧
    List.countP (isStatsFor id) l = 0 := by
  refine ⟨?_, ?_, ?_, ?_, ?_⟩
  · have := count_le_mentions (isAdmitFor id) id l
      (fun e he => isAdmitFor_mentions id e he)
    omega
  · have := count_le_mentions (isDropFor id) id l
      (fun e he => isDropFor_mentions id e he)
    omega
  · have := count_le_mentions (isFinFor id) id l
      (fun e he => isFinFor_mentions id e he)
    omega
  · have := count_le_mentions (isPreFor id) id l
      (fun e he => isPreFor_mentions id e he)
    omega
  · have := count_le_mentions (isStatsFor id) id l
      (fun e he => isStatsFor_mentions id e he)
    omega

end PreconnectManager

namespace PreconnectManager

theorem alookup_append_singleton_ne {α : Type} (l : List (Nat × α))
    (k k2 : Nat) (v : α) (h : k ≠ k2) :
    alookup (l ++ [(k, v)]) k2 = alookup l k2 := by
  rw [alookup_append]
  cases alookup l k2 with
  | none => simp [alookup, h, Option.orElse]
  | some w => rfl

theorem alookup_append_singleton_self {α : Type} (l : List (Nat × α))
    (k : Nat) (v : α) (h : alookup l k = none) :
    alookup (l ++ [(k, v)]) k = some v := by
  rw [alookup_append, h]
  simp [alookup, Option.orElse]

/-- A job phase transfers to any state that looks the same to that job. -/
theorem JobPhase_frame (s s2 : PMState) (id : Nat)
    (htab : tableHas s2 id ↔ tableHas s id)
    (hpend : pendingHas s2 id ↔ pendingHas s id)
    (hq : id ∈ s2.queued_jobs_ ↔ id ∈ s.queued_jobs_)
    (hlog : s2.log = s.log)
    (hlt : id < s2.next_job_id ↔ id < s.next_job_id)
    (hge : s2.next_job_id ≤ id ↔ s.next_job_id ≤ id)
    (h : JobPhase s id) : JobPhase s2 id := by
  unfold JobPhase at h ⊢
  rw [htab, hpend, hq, hlog, hlt, hge]
  exact h

/-- `JInv` only reads the job table, the pending list, the queue, the id
counter and the log. -/
theorem JInv_congr (s s2 : PMState)
    (h1 : s2.preresolve_jobs_ = s.preresolve_jobs_)
    (h2 : s2.pending = s.pending)
    (h3 : s2.queued_jobs_ = s.queued_jobs_)
    (h4 : s2.next_job_id = s.next_job_id)
    (h5 : s2.log = s.log) (h : JInv s) : JInv s2 := by
  obtain ⟨hnd, hph⟩ := h
  constructor
  · rw [h3]; exact hnd
  · intro id
    refine JobPhase_frame s s2 id ?_ ?_ ?_ h5 ?_ ?_ (hph id)
    · unfold tableHas; rw [h1]
    · unfold pendingHas; rw [h2]
    · rw [h3]
    · rw [h4]
    · rw [h4]

/-- Appending events that mention no job preserves the invariant. -/
theorem JInv_addNonJobEvents (s s2 : PMState) (l2 : List Event)
    (h1 : s2.preresolve_jobs_ = s.preresolve_jobs_)
    (h2 : s2.pending = s.pending)
    (h3 : s2.queued_jobs_ = s.queued_jobs_)
    (h4 : s2.next_job_id = s.next_job_id)
    (h5 : s2.log = s.log ++ l2)
    (hev : ∀ id : Nat, ∀ e ∈ l2, mentionsJob id e = false)
    (h : JInv s) : JInv s2 := by
  obtain ⟨hnd, hph⟩ := h
  constructor
  · rw [h3]; exact hnd
  · intro id
    have hcnt : ∀ p : Event → Bool,
        (∀ e, p e = true → mentionsJob id e = true) →
        List.countP p (s.log ++ l2) = List.countP p s.log := by
      intro p hp
      apply countP_append_none
      intro e he
      cases hpe : p e with
      | false => rfl
      | true => exact absurd (hp e hpe) (by simp [hev id e he])
    have hp := hph id
    unfold JobPhase at hp ⊢
    rw [h5]
    unfold tableHas pendingHas at hp ⊢
    rw [h1, h2, h3, h4]
    rw [hcnt (mentionsJob id) (fun e he => he),
        hcnt (isAdmitFor id) (isAdmitFor_mentions id),
        hcnt (isDropFor id) (isDropFor_mentions id),
        hcnt (isFinFor id) (isFinFor_mentions id),
        hcnt (isPreFor id) (isPreFor_mentions id),
        hcnt (isStatsFor id) (isStatsFor_mentions id)]
    exact hp

/-- The fresh id of a well-formed state is unused everywhere. -/
theorem fresh_id_facts (s : PMState) (h : JInv s) :
    alookup s.preresolve_jobs_ s.next_job_id = none ∧
    alookup s.pending s.next_job_id = none ∧
    s.next_job_id ∉ s.queued_jobs_ ∧
    List.countP (mentionsJob s.next_job_id) s.log = 0 := by
  have hp := h.2 s.next_job_id
  rcases hp with ⟨_, h2, h3, h4, h5⟩ | ⟨_, _, _, hlt, _⟩ |
    ⟨_, _, _, hlt, _⟩ | ⟨_, _, _, hlt, _⟩ | ⟨_, _, _, hlt, _⟩
  · refine ⟨?_, ?_, h4, h5⟩
    · exact Option.not_isSome_iff_eq_none.mp h2
    · exact Option.not_isSome_iff_eq_none.mp h3
  all_goals omega

/-- Creating a job with the fresh id and enqueueing it (front or back)
preserves the invariant; the new id moves to the queued phase. -/
theorem JInv_addJob (s : PMState) (job : PreresolveJob) (q2 : List Nat)
    (hq : q2 = s.next_job_id :: s.queued_jobs_ ∨
          q2 = s.queued_jobs_ ++ [s.next_job_id])
    (h : JInv s) :
    JInv { s with
      preresolve_jobs_ := s.preresolve_jobs_ ++ [(s.next_job_id, job)],
      next_job_id := s.next_job_id + 1,
      queued_jobs_ := q2 } := by
  obtain ⟨htabn, hpendn, hqn, hmentn⟩ := fresh_id_facts s h
  obtain ⟨hnd, hph⟩ := h
  constructor
  · show q2.Nodup
    rcases hq with hq | hq <;> subst hq
    · exact List.nodup_cons.mpr ⟨hqn, hnd⟩
    · rw [List.nodup_append]
      refine ⟨hnd, List.nodup_singleton _, ?_⟩
      intro a ha hb
      simp only [List.mem_singleton] at hb
      subst hb
      exact hqn ha
  · intro id
    by_cases hid : id = s.next_job_id
    · subst hid
      right; left
      obtain ⟨hz1, hz2, hz3, hz4, hz5⟩ :=
        counts_zero_of_mentions_zero s.next_job_id s.log hmentn
      refine ⟨?_, ?_, ?_,
        (by show s.next_job_id < s.next_job_id + 1; omega),
        hz1, hz2, hz3, hz4, hz5⟩
      · show (alookup (s.preresolve_jobs_ ++ [(s.next_job_id, job)])
            s.next_job_id).isSome = true
        rw [alookup_append_singleton_self _ _ _ htabn]
        rfl
      · show s.next_job_id ∈ q2
        rcases hq with hq | hq <;> subst hq
        · exact List.mem_cons_self _ _
        · exact List.mem_append.mpr (Or.inr (List.mem_singleton.mpr rfl))
      · show ¬ (alookup s.pending s.next_job_id).isSome = true
        rw [hpendn]
        simp
    · refine JobPhase_frame s _ id ?_ (Iff.rfl) ?_ rfl ?_ ?_ (hph id)
      · show (alookup (s.preresolve_jobs_ ++ [(s.next_job_id, job)])
            id).isSome = true ↔ _
        rw [alookup_append_singleton_ne _ _ _ _ (fun he => hid he.symm)]
        exact Iff.rfl
      · show id ∈ q2 ↔ id ∈ s.queued_jobs_
        rcases hq with hq | hq <;> subst hq
        · simp only [List.mem_cons]
          constructor
          · intro hmem
            rcases hmem with hmem | hmem
            · exact absurd hmem hid
            · exact hmem
          · exact Or.inr
        · simp only [List.mem_append, List.mem_singleton]
          constructor
          · intro hmem
            rcases hmem with hmem | hmem
            · exact hmem
            · exact absurd hmem hid
          · exact Or.inl
      · show id < s.next_job_id + 1 ↔ id < s.next_job_id
        omega
      · show s.next_job_id + 1 ≤ id ↔ s.next_job_id ≤ id
        omega

end PreconnectManager

namespace PreconnectManager

/-- An id in the queue of a well-formed state is in the queued phase. -/
theorem phase_of_queued (s : PMState) (h : JInv s) (a : Nat)
    (ha : a ∈ s.queued_jobs_) :
    tableHas s a ∧ ¬pendingHas s a ∧ a < s.next_job_id ∧
    List.countP (isAdmitFor a) s.log = 0 ∧
    List.countP (isDropFor a) s.log = 0 ∧
    List.countP (isFinFor a) s.log = 0 ∧
    List.countP (isPreFor a) s.log = 0 ∧
    List.countP (isStatsFor a) s.log = 0 := by
  rcases h.2 a with ⟨_, _, _, h4, _⟩ | ⟨h1, _, h3, h4, h5, h6, h7, h8, h9⟩ |
    ⟨_, h2, _, _, _⟩ | ⟨_, h2, _, _, _⟩ | ⟨_, h2, _, _, _⟩
  · exact absurd ha h4
  · exact ⟨h1, h3, h4, h5, h6, h7, h8, h9⟩
  all_goals exact absurd ha h2

/-- A job phase transfers across a step that appends only events about
other jobs. -/
theorem JobPhase_frame_append (s s2 : PMState) (id : Nat) (l2 : List Event)
    (htab : tableHas s2 id ↔ tableHas s id)
    (hpend : pendingHas s2 id ↔ pendingHas s id)
    (hq : id ∈ s2.queued_jobs_ ↔ id ∈ s.queued_jobs_)
    (hlog : s2.log = s.log ++ l2)
    (hme : ∀ e ∈ l2, mentionsJob id e = false)
    (hlt : id < s2.next_job_id ↔ id < s.next_job_id)
    (hge : s2.next_job_id ≤ id ↔ s.next_job_id ≤ id)
    (h : JobPhase s id) : JobPhase s2 id := by
  have hcnt : ∀ p : Event → Bool,
      (∀ e, p e = true → mentionsJob id e = true) →
      List.countP p (s.log ++ l2) = List.countP p s.log := by
    intro p hp
    apply countP_append_none
    intro e he
    cases hpe : p e with
    | false => rfl
    | true => exact absurd (hp e hpe) (by simp [hme e he])
  unfold JobPhase at h ⊢
  rw [htab, hpend, hq, hlog, hlt, hge,
      hcnt (mentionsJob id) (fun e he => he),
      hcnt (isAdmitFor id) (isAdmitFor_mentions id),
      hcnt (isDropFor id) (isDropFor_mentions id),
      hcnt (isFinFor id) (isFinFor_mentions id),
      hcnt (isPreFor id) (isPreFor_mentions id),
      hcnt (isStatsFor id) (isStatsFor_mentions id)]
  exact h

theorem decQueuedCount_fields (s : PMState) (io : Option Nat) :
    (decQueuedCount s io).preresolve_jobs_ = s.preresolve_jobs_ ∧
    (decQueuedCount s io).pending = s.pending ∧
    (decQueuedCount s io).queued_jobs_ = s.queued_jobs_ ∧
    (decQueuedCount s io).next_job_id = s.next_job_id ∧
    (decQueuedCount s io).log = s.log := by
  cases io <;> exact ⟨rfl, rfl, rfl, rfl, rfl⟩

/-- The admission loop preserves the invariant (the loop state carries the
remaining queue explicitly; the invariant is read with that queue). -/
theorem JInv_tryLoop (q : List Nat) :
    ∀ s : PMState, JInv { s with queued_jobs_ := q } →
      JInv (tryLoop q s) := by
  induction q with
  | nil => intro s h; exact h
  | cons a rest ih =>
      intro s h
      rw [tryLoop]
      by_cases hlt :
          s.inflight_preresolves_count_ < kMaxInflightPreresolves
      · rw [if_pos hlt]
        have hmem : a ∈ ({ s with queued_jobs_ := a :: rest } :
            PMState).queued_jobs_ := List.mem_cons_self a rest
        obtain ⟨htab, hpend, hltn, hz1, hz2, hz3, hz4, hz5⟩ :=
          phase_of_queued _ h a hmem
        have hnd : (a :: rest).Nodup := h.1
        have hanotin : a ∉ rest := (List.nodup_cons.mp hnd).1
        have hndrest : rest.Nodup := (List.nodup_cons.mp hnd).2
        cases hj : alookup s.preresolve_jobs_ a with
        | none =>
            exact absurd htab (by
              show ¬ (alookup s.preresolve_jobs_ a).isSome = true
              rw [hj]
              simp)
        | some job =>
            dsimp only
            by_cases hc : jobCanceled s job.info
            · rw [hc]
              apply ih
              refine JInv_congr
                ({ s with
                    preresolve_jobs_ := aremove s.preresolve_jobs_ a,
                    log := s.log ++ [Event.dropped a],
                    queued_jobs_ := rest } : PMState) _
                (decQueuedCount_fields _ _).1 (decQueuedCount_fields _ _).2.1
                rfl (decQueuedCount_fields _ _).2.2.2.1
                (decQueuedCount_fields _ _).2.2.2.2 ?_
              constructor
              · exact hndrest
              · intro id
                by_cases hid : id = a
                · subst hid
                  right; right; right; left
                  refine ⟨?_, hanotin, hpend, hltn, ?_, ?_, ?_, ?_, ?_⟩
                  · show ¬ (alookup (aremove s.preresolve_jobs_ id)
                        id).isSome = true
                    rw [alookup_aremove_eq]
                    simp
                  · rw [countP_snoc, hz1]
                    simp [isAdmitFor]
                  · rw [countP_snoc, hz2]
                    simp [isDropFor]
                  · rw [countP_snoc, hz3]
                    simp [isFinFor]
                  · rw [countP_snoc, hz4]
                    simp [isPreFor]
                  · rw [countP_snoc, hz5]
                    simp [isStatsFor]
                · refine JobPhase_frame_append
                    ({ s with queued_jobs_ := a :: rest } : PMState) _ id
                    [Event.dropped a] ?_ Iff.rfl ?_ rfl ?_ Iff.rfl Iff.rfl
                    (h.2 id)
                  · show (alookup (aremove s.preresolve_jobs_ a)
                        id).isSome = true ↔ _
                    rw [alookup_aremove_ne _ _ _ (fun he => hid he.symm)]
                    exact Iff.rfl
                  · show id ∈ rest ↔ id ∈ a :: rest
                    simp only [List.mem_cons]
                    constructor
                    · exact Or.inr
                    · intro hmem2
                      rcases hmem2 with hmem2 | hmem2
                      · exact absurd hmem2 hid
                      · exact hmem2
                  · intro e he
                    simp only [List.mem_singleton] at he
                    subst he
                    show (a == id) = false
                    exact beq_eq_false_iff_ne.mpr (fun he2 => hid he2.symm)
            · rw [Bool.not_eq_true] at hc
              rw [hc]
              apply ih
              refine JInv_congr
                ({ s with
                    pending := s.pending ++ [(a,
                      match (PreresolveUrl s.ctx_available a).posted with
                      | [] => none
                      | (_, b) :: _ => some b)],
                    inflight_preresolves_count_ :=
                      s.inflight_preresolves_count_ + 1,
                    infos := (admitJob s a job).infos,
                    log := s.log ++ [Event.admitted a job.url] ++
                      (match (PreresolveUrl s.ctx_available a).posted with
                       | [] => []
                       | _ :: _ => [Event.postedFailure a]),
                    queued_jobs_ := rest } : PMState) _
                (decQueuedCount_fields _ _).1 (decQueuedCount_fields _ _).2.1
                rfl (decQueuedCount_fields _ _).2.2.2.1
                (decQueuedCount_fields _ _).2.2.2.2 ?_
              have hpendnone : alookup s.pending a = none :=
                Option.not_isSome_iff_eq_none.mp hpend
              constructor
              · exact hndrest
              · intro id
                by_cases hid : id = a
                · subst hid
                  right; right; left
                  refine ⟨htab, hanotin, ?_, hltn, ?_, ?_, ?_, ?_, ?_⟩
                  · show (alookup (s.pending ++ [(id, _)]) id).isSome = true
                    rw [alookup_append_singleton_self _ _ _ hpendnone]
                    rfl
                  · rw [List.append_assoc, List.countP_append, hz1]
                    cases hpost : (PreresolveUrl s.ctx_available id).posted
                      with
                    | nil => simp [isAdmitFor]
                    | cons b l2 => simp [isAdmitFor]
                  · rw [List.append_assoc, List.countP_append, hz2]
                    cases hpost : (PreresolveUrl s.ctx_available id).posted
                      with
                    | nil => simp [isDropFor]
                    | cons b l2 => simp [isDropFor]
                  · rw [List.append_assoc, List.countP_append, hz3]
                    cases hpost : (PreresolveUrl s.ctx_available id).posted
                      with
                    | nil => simp [isFinFor]
                    | cons b l2 => simp [isFinFor]
                  · rw [List.append_assoc, List.countP_append, hz4]
                    cases hpost : (PreresolveUrl s.ctx_available id).posted
                      with
                    | nil => simp [isPreFor]
                    | cons b l2 => simp [isPreFor]
                  · rw [List.append_assoc, List.countP_append, hz5]
                    cases hpost : (PreresolveUrl s.ctx_available id).posted
                      with
                    | nil => simp [isStatsFor]
                    | cons b l2 => simp [isStatsFor]
                · refine JobPhase_frame_append
                    ({ s with queued_jobs_ := a :: rest } : PMState) _ id
                    ([Event.admitted a job.url] ++
                      (match (PreresolveUrl s.ctx_available a).posted with
                       | [] => []
                       | _ :: _ => [Event.postedFailure a]))
                    Iff.rfl ?_ ?_ (List.append_assoc _ _ _) ?_
                    Iff.rfl Iff.rfl (h.2 id)
                  · show (alookup (s.pending ++ [(a, _)]) id).isSome =
                        true ↔ _
                    rw [alookup_append_singleton_ne _ _ _ _
                      (fun he => hid he.symm)]
                    exact Iff.rfl
                  · show id ∈ rest ↔ id ∈ a :: rest
                    simp only [List.mem_cons]
                    constructor
                    · exact Or.inr
                    · intro hmem2
                      rcases hmem2 with hmem2 | hmem2
                      · exact absurd hmem2 hid
                      · exact hmem2
                  · intro e he
                    simp only [List.mem_append, List.mem_singleton] at he
                    rcases he with he | he
                    · subst he
                      show (a == id) = false
                      exact beq_eq_false_iff_ne.mpr
                        (fun he2 => hid he2.symm)
                    · cases hpost :
                          (PreresolveUrl s.ctx_available a).posted with
                      | nil => rw [hpost] at he; simp at he
                      | cons b l2 =>
                          rw [hpost] at he
                          simp only [List.mem_singleton] at he
                          subst he
                          show (a == id) = false
                          exact beq_eq_false_iff_ne.mpr
                            (fun he2 => hid he2.symm)
      · rw [if_neg hlt]
        exact h

theorem JInv_tryToLaunch (s : PMState) (h : JInv s) :
    JInv (TryToLaunchPreresolveJobs s) := by
  apply JInv_tryLoop
  cases s
  exact h

end PreconnectManager

namespace PreconnectManager

theorem JInv_Stop (s : PMState) (url : Url) (h : JInv s) :
    JInv (Stop s url) := by
  unfold Stop
  cases alookup s.preresolve_info_ url.host with
  | none => exact h
  | some gid => exact JInv_congr s _ rfl rfl rfl rfl rfl h

theorem JInv_AllPreresolvesForUrlFinished (s : PMState) (gid : Nat)
    (h : JInv s) : JInv (AllPreresolvesForUrlFinished s gid) := by
  unfold AllPreresolvesForUrlFinished
  cases getInfo s gid with
  | none => exact h
  | some g =>
      dsimp only
      cases alookup s.preresolve_info_ g.url.host with
      | none => exact h
      | some gid2 =>
          refine JInv_addNonJobEvents s _ [Event.report g.url g.stats]
            rfl rfl rfl rfl rfl ?_ h
          intro id e he
          simp only [List.mem_singleton] at he
          subst he
          rfl

theorem JInv_maybeFinalizeGroup (s : PMState) (io : Option Nat)
    (h : JInv s) : JInv (maybeFinalizeGroup s io) := by
  unfold maybeFinalizeGroup
  cases io with
  | none => exact h
  | some gid =>
      dsimp only
      cases getInfo s gid with
      | none => exact h
      | some g =>
          dsimp only
          split
          · exact JInv_AllPreresolvesForUrlFinished s gid h
          · exact h

theorem JInv_decInflight (s : PMState) (h : JInv s) :
    JInv (decInflight s) :=
  JInv_congr s _ rfl rfl rfl rfl rfl h

theorem JInv_decGroupInflight (s : PMState) (io : Option Nat) (h : JInv s) :
    JInv (decGroupInflight s io) := by
  cases io with
  | none => exact h
  | some gid => exact JInv_congr s _ rfl rfl rfl rfl rfl h

/-- `FinishPreresolve` on a job that has just been taken out of the
pending list (admitted once, no terminal events yet) restores the full
invariant, with the job landing in the finished phase. -/
theorem JInv_FinishPreresolve_mid (s : PMState) (id : Nat) (found : Bool)
    (hnd : s.queued_jobs_.Nodup)
    (hothers : ∀ id2, ¬ id2 = id → JobPhase s id2)
    (htab : tableHas s id) (hq : id ∉ s.queued_jobs_)
    (hpend : ¬pendingHas s id) (hlt : id < s.next_job_id)
    (ha : List.countP (isAdmitFor id) s.log = 1)
    (hd : List.countP (isDropFor id) s.log = 0)
    (hf : List.countP (isFinFor id) s.log = 0)
    (hp : List.countP (isPreFor id) s.log = 0)
    (hs : List.countP (isStatsFor id) s.log = 0) :
    JInv (FinishPreresolve s id found false) := by
  obtain ⟨job, hj⟩ : ∃ job, alookup s.preresolve_jobs_ id = some job := by
    cases hv : alookup s.preresolve_jobs_ id with
    | none =>
        unfold tableHas at htab
        rw [hv] at htab
        exact absurd htab (by simp)
    | some job => exact ⟨job, rfl⟩
  have hshape : ∃ (infos2 : List (Nat × PreresolveInfo)) (l2 : List Event),
      FinishPreresolve s id found false =
        { s with preresolve_jobs_ := aremove s.preresolve_jobs_ id,
                 infos := infos2, log := s.log ++ l2 } ∧
      List.countP (isAdmitFor id) l2 = 0 ∧
      List.countP (isDropFor id) l2 = 0 ∧
      List.countP (isFinFor id) l2 = 1 ∧
      List.countP (isPreFor id) l2 ≤ 1 ∧
      List.countP (isStatsFor id) l2 ≤ 1 ∧
      (∀ id2, ¬ id2 = id → ∀ e ∈ l2, mentionsJob id2 e = false) := by
    unfold FinishPreresolve
    rw [hj]
    dsimp only
    have hpe : (if (found && job.need_preconnect &&
          !jobCanceled s job.info) = true then
          (PreconnectUrlCall s.ctx_available id job.info job.url
            job.num_sockets job.allow_credentials).toList
        else []) = [] ∨
        ∃ lf pm, (if (found && job.need_preconnect &&
          !jobCanceled s job.info) = true then
          (PreconnectUrlCall s.ctx_available id job.info job.url
            job.num_sockets job.allow_credentials).toList
        else []) = [Event.preconnect id job.info job.url job.num_sockets
          lf pm] := by
      by_cases hnp : (found && job.need_preconnect &&
          !jobCanceled s job.info) = true
      · rw [if_pos hnp]
        unfold PreconnectUrlCall
        by_cases hctx : s.ctx_available
        · rw [if_neg (by simp [hctx])]
          right
          exact ⟨_, _, rfl⟩
        · rw [if_pos (by simp [hctx])]
          left
          rfl
      · rw [if_neg hnp]
        left
        rfl
    rcases hpe with hpe | ⟨lf, pm, hpe⟩ <;> rw [hpe]
    · rw [List.append_nil]
      unfold recordStats
      cases hio : job.info with
      | none =>
          refine ⟨s.infos, [Event.finished id], ?_, ?_, ?_, ?_, ?_, ?_, ?_⟩
          · rfl
          · simp [List.countP_cons, isAdmitFor]
          · simp [List.countP_cons, isDropFor]
          · simp [List.countP_cons, isFinFor]
          · simp [List.countP_cons, isPreFor]
          · simp [List.countP_cons, isStatsFor]
          · intro id2 hne e he
            simp only [List.mem_singleton] at he
            subst he
            show (id == id2) = false
            exact beq_eq_false_iff_ne.mpr (fun he2 => hne he2.symm)
      | some gid =>
          dsimp only
          split
          · unfold appendStats
            dsimp only
            refine ⟨aupdate s.infos gid (fun g =>
                { g with stats := { g.stats with requests_stats :=
                    g.stats.requests_stats ++
                      [{ origin := job.url, was_preresolve_cached := false,
                         was_preconnected := found && job.need_preconnect &&
                           !jobCanceled s (some gid) }] } }),
              [Event.statsRecord id gid
                { origin := job.url, was_preresolve_cached := false,
                  was_preconnected := found && job.need_preconnect &&
                    !jobCanceled s (some gid) },
               Event.finished id],
              ?_, ?_, ?_, ?_, ?_, ?_, ?_⟩
            · unfold removeFinished
              dsimp only
              simp only [List.append_assoc]
              rfl
            · simp [List.countP_cons, isAdmitFor]
            · simp [List.countP_cons, isDropFor]
            · simp [List.countP_cons, isFinFor, isStatsFor]
            · simp [List.countP_cons, isPreFor]
            · simp [List.countP_cons, isStatsFor, isFinFor]
            · intro id2 hne e he
              simp only [List.mem_cons, List.mem_singleton,
                List.not_mem_nil, or_false] at he
              rcases he with he | he <;> subst he <;>
                · show (id == id2) = false
                  exact beq_eq_false_iff_ne.mpr (fun he2 => hne he2.symm)
          · refine ⟨s.infos, [Event.finished id], ?_, ?_, ?_, ?_, ?_, ?_,
              ?_⟩
            · rfl
            · simp [List.countP_cons, isAdmitFor]
            · simp [List.countP_cons, isDropFor]
            · simp [List.countP_cons, isFinFor]
            · simp [List.countP_cons, isPreFor]
            · simp [List.countP_cons, isStatsFor]
            · intro id2 hne e he
              simp only [List.mem_singleton] at he
              subst he
              show (id == id2) = false
              exact beq_eq_false_iff_ne.mpr (fun he2 => hne he2.symm)
    · unfold recordStats
      cases hio : job.info with
      | none =>
          refine ⟨s.infos, [Event.preconnect id none job.url
              job.num_sockets lf pm, Event.finished id],
            ?_, ?_, ?_, ?_, ?_, ?_, ?_⟩
          · unfold removeFinished
            dsimp only
            simp only [List.append_assoc]
            rfl
          · simp [List.countP_cons, isAdmitFor]
          · simp [List.countP_cons, isDropFor]
          · simp [List.countP_cons, isFinFor, isPreFor]
          · simp [List.countP_cons, isPreFor, isFinFor]
          · simp [List.countP_cons, isStatsFor]
          · intro id2 hne e he
            simp only [List.mem_cons, List.mem_singleton,
              List.not_mem_nil, or_false] at he
            rcases he with he | he <;> subst he <;>
              · show (id == id2) = false
                exact beq_eq_false_iff_ne.mpr (fun he2 => hne he2.symm)
      | some gid =>
          dsimp only
          split
          · unfold appendStats
            dsimp only
            refine ⟨aupdate s.infos gid (fun g =>
                { g with stats := { g.stats with requests_stats :=
                    g.stats.requests_stats ++
                      [{ origin := job.url, was_preresolve_cached := false,
                         was_preconnected := found && job.need_preconnect &&
                           !jobCanceled s (some gid) }] } }),
              [Event.preconnect id (some gid) job.url
                job.num_sockets lf pm,
               Event.statsRecord id gid
                { origin := job.url, was_preresolve_cached := false,
                  was_preconnected := found && job.need_preconnect &&
                    !jobCanceled s (some gid) },
               Event.finished id],
              ?_, ?_, ?_, ?_, ?_, ?_, ?_⟩
            · unfold removeFinished
              dsimp only
              simp only [List.append_assoc]
              rfl
            · simp [List.countP_cons, isAdmitFor]
            · simp [List.countP_cons, isDropFor]
            · simp [List.countP_cons, isFinFor, isPreFor, isStatsFor]
            · simp [List.countP_cons, isPreFor, isFinFor, isStatsFor]
            · simp [List.countP_cons, isStatsFor, isPreFor, isFinFor]
            · intro id2 hne e he
              simp only [List.mem_cons, List.mem_singleton,
                List.not_mem_nil, or_false] at he
              rcases he with he | he | he <;> subst he <;>
                · show (id == id2) = false
                  exact beq_eq_false_iff_ne.mpr (fun he2 => hne he2.symm)
          · refine ⟨s.infos, [Event.preconnect id (some gid) job.url
                job.num_sockets lf pm, Event.finished id],
              ?_, ?_, ?_, ?_, ?_, ?_, ?_⟩
            · unfold removeFinished
              dsimp only
              simp only [List.append_assoc]
              rfl
            · simp [List.countP_cons, isAdmitFor]
            · simp [List.countP_cons, isDropFor]
            · simp [List.countP_cons, isFinFor, isPreFor]
            · simp [List.countP_cons, isPreFor, isFinFor]
            · simp [List.countP_cons, isStatsFor]
            · intro id2 hne e he
              simp only [List.mem_cons, List.mem_singleton,
                List.not_mem_nil, or_false] at he
              rcases he with he | he <;> subst he <;>
                · show (id == id2) = false
                  exact beq_eq_false_iff_ne.mpr (fun he2 => hne he2.symm)
  obtain ⟨infos2, l2, heq, hc1, hc2, hc3, hc4, hc5, hment⟩ := hshape
  rw [heq]
  constructor
  · exact hnd
  · intro id2
    by_cases hid2 : id2 = id
    · subst hid2
      right; right; right; right
      refine ⟨?_, hq, hpend, hlt, ?_, ?_, ?_, ?_, ?_⟩
      · show ¬ (alookup (aremove s.preresolve_jobs_ id2) id2).isSome = true
        rw [alookup_aremove_eq]
        simp
      · show List.countP (isAdmitFor id2) (s.log ++ l2) = 1
        rw [List.countP_append, ha, hc1]
      · show List.countP (isDropFor id2) (s.log ++ l2) = 0
        rw [List.countP_append, hd, hc2]
      · show List.countP (isFinFor id2) (s.log ++ l2) = 1
        rw [List.countP_append, hf, hc3]
      · show List.countP (isPreFor id2) (s.log ++ l2) ≤ 1
        rw [List.countP_append, hp]
        omega
      · show List.countP (isStatsFor id2) (s.log ++ l2) ≤ 1
        rw [List.countP_append, hs]
        omega
    · refine JobPhase_frame_append s _ id2 l2 ?_ Iff.rfl Iff.rfl rfl
        (hment id2 hid2) Iff.rfl Iff.rfl (hothers id2 hid2)
      show (alookup (aremove s.preresolve_jobs_ id) id2).isSome = true ↔ _
      rw [alookup_aremove_ne _ _ _ (fun he => hid2 he.symm)]
      exact Iff.rfl

end PreconnectManager

namespace PreconnectManager

/-- An id whose callback the network layer holds is in the in-flight
phase. -/
theorem phase_of_pending (s : PMState) (h : JInv s) (a : Nat)
    (ha : pendingHas s a) :
    tableHas s a ∧ a ∉ s.queued_jobs_ ∧ a < s.next_job_id ∧
    List.countP (isAdmitFor a) s.log = 1 ∧
    List.countP (isDropFor a) s.log = 0 ∧
    List.countP (isFinFor a) s.log = 0 ∧
    List.countP (isPreFor a) s.log = 0 ∧
    List.countP (isStatsFor a) s.log = 0 := by
  rcases h.2 a with ⟨_, _, h3, _, _⟩ | ⟨_, _, h3, _, _⟩ |
    ⟨h1, h2, _, h4, h5, h6, h7, h8, h9⟩ | ⟨_, _, h3, _, _⟩ |
    ⟨_, _, h3, _, _⟩
  · exact absurd ha h3
  · exact absurd ha h3
  · exact ⟨h1, h2, h4, h5, h6, h7, h8, h9⟩
  · exact absurd ha h3
  · exact absurd ha h3

theorem JInv_applyOp (s : PMState) (op : Op) (h : JInv s) :
    JInv (applyOp s op) := by
  cases op with
  | start url requests =>
      show JInv (Start s url requests)
      unfold Start
      by_cases hdup : (alookup s.preresolve_info_ url.host).isSome
      · rw [if_pos hdup]; exact h
      · rw [if_neg hdup]
        dsimp only
        apply JInv_tryToLaunch
        have hfold : ∀ (l : List PreconnectRequest) (acc : PMState),
            JInv acc →
            JInv (List.foldl (fun acc request =>
              { acc with
                preresolve_jobs_ := acc.preresolve_jobs_ ++
                  [(acc.next_job_id,
                    { url := request.origin,
                      num_sockets := request.num_sockets,
                      allow_credentials := request.allow_credentials,
                      info := some s.next_info_id })],
                next_job_id := acc.next_job_id + 1,
                queued_jobs_ := acc.queued_jobs_ ++ [acc.next_job_id] })
              acc l) := by
          intro l
          induction l with
          | nil => intro acc hacc; exact hacc
          | cons x l2 ih =>
              intro acc hacc
              exact ih _ (JInv_addJob acc _ _ (Or.inr rfl) hacc)
        exact hfold requests _ (JInv_congr s _ rfl rfl rfl rfl rfl h)
  | startPreresolveHost url =>
      show JInv (StartPreresolveHost s url)
      unfold StartPreresolveHost
      by_cases hsch : url.schemeIsHTTPOrHTTPS
      · simp only [hsch, Bool.not_true, Bool.false_eq_true, if_false]
        exact JInv_tryToLaunch _ (JInv_addJob s _ _ (Or.inl rfl) h)
      · simp only [Bool.not_eq_true] at hsch
        simp only [hsch, Bool.not_false, if_true]
        exact h
  | startPreresolveHosts hostnames =>
      show JInv (StartPreresolveHosts s hostnames)
      unfold StartPreresolveHosts
      dsimp only
      apply JInv_tryToLaunch
      have hfold : ∀ (l : List String) (acc : PMState),
          JInv acc →
          JInv (List.foldl (fun acc hostname =>
            { acc with
              preresolve_jobs_ := acc.preresolve_jobs_ ++
                [(acc.next_job_id,
                  { url := mkHttpUrl hostname, num_sockets := 0,
                    allow_credentials :=
                      kAllowCredentialsOnPreconnectByDefault,
                    info := none })],
              next_job_id := acc.next_job_id + 1,
              queued_jobs_ := acc.next_job_id :: acc.queued_jobs_ })
            acc l) := by
        intro l
        induction l with
        | nil => intro acc hacc; exact hacc
        | cons x l2 ih =>
            intro acc hacc
            exact ih _ (JInv_addJob acc _ _ (Or.inl rfl) hacc)
      exact hfold hostnames.reverse s h
  | startPreconnectUrl url allow =>
      show JInv (StartPreconnectUrl s url allow)
      unfold StartPreconnectUrl
      by_cases hsch : url.schemeIsHTTPOrHTTPS
      · simp only [hsch, Bool.not_true, Bool.false_eq_true, if_false]
        exact JInv_tryToLaunch _ (JInv_addJob s _ _ (Or.inl rfl) h)
      · simp only [Bool.not_eq_true] at hsch
        simp only [hsch, Bool.not_false, if_true]
        exact h
  | stop url => exact JInv_Stop s url h
  | complete job_id success =>
      show JInv (completeOp s job_id success)
      unfold completeOp
      cases hpv : alookup s.pending job_id with
      | none => exact h
      | some forced =>
          have hpend : pendingHas s job_id := by
            show (alookup s.pending job_id).isSome = true
            rw [hpv]
            rfl
          obtain ⟨htab, hq, hlt, ha, hd, hf, hp, hs⟩ :=
            phase_of_pending s h job_id hpend
          obtain ⟨job, hj⟩ : ∃ job,
              alookup s.preresolve_jobs_ job_id = some job := by
            cases hv : alookup s.preresolve_jobs_ job_id with
            | none =>
                unfold tableHas at htab
                rw [hv] at htab
                exact absurd htab (by simp)
            | some job => exact ⟨job, rfl⟩
          unfold OnPreresolveFinished
          dsimp only
          rw [hj]
          dsimp only
          apply JInv_tryToLaunch
          apply JInv_maybeFinalizeGroup
          apply JInv_decGroupInflight
          apply JInv_decInflight
          apply JInv_FinishPreresolve_mid
          · exact h.1
          · intro id2 hid2
            refine JobPhase_frame_append s _ id2
              [Event.resolveFinishedObs job_id (forced.getD success)]
              Iff.rfl ?_ Iff.rfl rfl ?_ Iff.rfl Iff.rfl (h.2 id2)
            · show (alookup (aremove s.pending job_id) id2).isSome =
                  true ↔ _
              rw [alookup_aremove_ne _ _ _ (fun he => hid2 he.symm)]
              exact Iff.rfl
            · intro e he
              simp only [List.mem_singleton] at he
              subst he
              show (job_id == id2) = false
              exact beq_eq_false_iff_ne.mpr (fun he2 => hid2 he2.symm)
          · exact htab
          · exact hq
          · show ¬ (alookup (aremove s.pending job_id)
                job_id).isSome = true
            rw [alookup_aremove_eq]
            simp
          · exact hlt
          · rw [countP_snoc, ha]
            simp [isAdmitFor]
          · rw [countP_snoc, hd]
            simp [isDropFor]
          · rw [countP_snoc, hf]
            simp [isFinFor]
          · rw [countP_snoc, hp]
            simp [isPreFor]
          · rw [countP_snoc, hs]
            simp [isStatsFor]

theorem JInv_run (ops : List Op) :
    ∀ s : PMState, JInv s → JInv (run ops s) := by
  induction ops with
  | nil => intro s h; exact h
  | cons op ops ih => intro s h; exact ih _ (JInv_applyOp s op h)

end PreconnectManager

namespace PreconnectManager

/-- Trace for the C7 witness: one ad-hoc preconnect job is admitted and
its resolve completes successfully. -/
def c7Trace : List Op :=
  [Op.startPreconnectUrl (mkHttpUrl "w") true, Op.complete 0 true]

/-- **C7.** Every job reaches at most one terminal disposition and is
removed from the job table exactly once: in every state reachable from
the initial state, a job's drop and finish event counts sum to at most
one, its preconnect and stats-record counts are at most one; a dropped
job was never admitted to the network, preconnected, or given a stats
record; a finished job was admitted exactly once and never dropped; a
job still resident in the table has no terminal event yet; and an
allocated job that has left the table has exactly one terminal event. -/
theorem job_terminal_disposition (ctx : Bool) (ops : List Op) (id : Nat) :
    List.countP (isDropFor id) (run ops (initState ctx)).log +
      List.countP (isFinFor id) (run ops (initState ctx)).log ≤ 1 ∧
    List.countP (isPreFor id) (run ops (initState ctx)).log ≤ 1 ∧
    List.countP (isStatsFor id) (run ops (initState ctx)).log ≤ 1 ∧
    (List.countP (isDropFor id) (run ops (initState ctx)).log = 1 →
      List.countP (isAdmitFor id) (run ops (initState ctx)).log = 0 ∧
      List.countP (isPreFor id) (run ops (initState ctx)).log = 0 ∧
      List.countP (isStatsFor id) (run ops (initState ctx)).log = 0) ∧
    (List.countP (isFinFor id) (run ops (initState ctx)).log = 1 →
      List.countP (isAdmitFor id) (run ops (initState ctx)).log = 1 ∧
      List.countP (isDropFor id) (run ops (initState ctx)).log = 0) ∧
    (tableHas (run ops (initState ctx)) id →
      List.countP (isDropFor id) (run ops (initState ctx)).log = 0 ∧
      List.countP (isFinFor id) (run ops (initState ctx)).log = 0) ∧
    (¬ tableHas (run ops (initState ctx)) id →
      id < (run ops (initState ctx)).next_job_id →
      List.countP (isDropFor id) (run ops (initState ctx)).log +
        List.countP (isFinFor id) (run ops (initState ctx)).log = 1) := by
  have hinv : JInv (run ops (initState ctx)) :=
    JInv_run ops (initState ctx) (JInv_init ctx)
  rcases hinv.2 id with
    ⟨hge, htab, _, _, hment⟩ |
    ⟨htab, _, _, hlt, ha, hd, hf, hp, hs⟩ |
    ⟨htab, _, _, hlt, ha, hd, hf, hp, hs⟩ |
    ⟨htab, _, _, hlt, ha, hd, hf, hp, hs⟩ |
    ⟨htab, _, _, hlt, ha, hd, hf, hp, hs⟩
  · obtain ⟨hz1, hz2, hz3, hz4, hz5⟩ :=
      counts_zero_of_mentions_zero id _ hment
    refine ⟨by omega, by omega, by omega, ?_, ?_, ?_, ?_⟩
    · intro hone; omega
    · intro hone; omega
    · intro _; omega
    · intro _ hlt2; omega
  · refine ⟨by omega, by omega, by omega, ?_, ?_, ?_, ?_⟩
    · intro hone; omega
    · intro hone; omega
    · intro _; omega
    · intro hnt _; exact absurd htab hnt
  · refine ⟨by omega, by omega, by omega, ?_, ?_, ?_, ?_⟩
    · intro hone; omega
    · intro hone; omega
    · intro _; omega
    · intro hnt _; exact absurd htab hnt
  · refine ⟨by omega, by omega, by omega, ?_, ?_, ?_, ?_⟩
    · intro _; omega
    · intro hone; omega
    · intro ht; exact absurd ht htab
    · intro _ _; omega
  · refine ⟨by omega, by omega, by omega, ?_, ?_, ?_, ?_⟩
    · intro hone; omega
    · intro _; omega
    · intro ht; exact absurd ht htab
    · intro _ _; omega

/-- Witness for C7 at a concrete trace: the single admitted job of
`c7Trace` has left the table and carries exactly one terminal event and
one admission. -/
theorem job_terminal_disposition_witness :
    ¬ tableHas (run c7Trace (initState true)) 0 ∧
    0 < (run c7Trace (initState true)).next_job_id ∧
    List.countP (isDropFor 0) (run c7Trace (initState true)).log +
      List.countP (isFinFor 0) (run c7Trace (initState true)).log = 1 ∧
    List.countP (isAdmitFor 0) (run c7Trace (initState true)).log = 1 :=
  ⟨by unfold tableHas; decide, by decide,
   (job_terminal_disposition true c7Trace 0).2.2.2.2.2.2
     (by unfold tableHas; decide) (by decide),
   ((job_terminal_disposition true c7Trace 0).2.2.2.2.1 (by decide)).1⟩

end PreconnectManager
